import Mathlib

/-
Shallow embedding of the game engine in `src/main.py` (Escape from Atlantis).

Modelling conventions:
* Python villager/tile objects are cross-referenced by their numeric ids:
  a `Tile` stores the ids of its occupants, a `Player` stores the villager
  values themselves (as the Python `player.villagers` list does).  Mutating
  a villager object through any alias in Python corresponds here to an
  id-directed functional update.
* `random.choice(lst)` is modelled by `pyChoice lst i` with an oracle index
  `i`: for a nonempty list it returns the element at `i % lst.length`, so
  every element is reachable by a suitable oracle, and the empty list gives
  `none` (Python would raise, but the source always guards nonemptiness).
* `random.randint`/die rolls are oracle parameters as well.
* Python `min(xs, key=k)` / `max(xs, key=k)` keep the first extremal
  element; `pyMinBy` / `pyMaxBy` reproduce exactly that fold.
-/

namespace Atlantis

/-- Tile types, from `TILE_INFO` in main.py. -/
inductive TileType where
  | beach
  | forest
  | mountain
  | volcano
deriving DecidableEq

/-- The `distance` field of `TILE_INFO`: beach 3, forest 2, mountain 1, volcano 1. -/
def tileDistance : TileType → Nat
  | .beach => 3
  | .forest => 2
  | .mountain => 1
  | .volcano => 1

/-- A board tile (`class Tile`).  `villagers` holds occupant villager ids. -/
structure Tile where
  id : Nat
  type : TileType
  distance : Nat
  villagers : List Nat
  capacity : Nat
deriving DecidableEq

/-- `Tile.__init__`: fresh tile of a given type, empty occupant list, capacity 3. -/
def mkTile (id : Nat) (ty : TileType) : Tile :=
  { id := id, type := ty, distance := tileDistance ty, villagers := [], capacity := 3 }

/-- Villager lifecycle states (`"land"`, `"water"`, `"safe"`, `"dead"`). -/
inductive VState where
  | land
  | water
  | safe
  | dead
deriving DecidableEq

/-- A villager (`class Villager`).  `tile` is the id of the referenced tile. -/
structure Villager where
  id : Nat
  owner : String
  treasure : Nat
  state : VState
  distance_remaining : Int
  tile : Option Nat
deriving DecidableEq

/-- A player (`class Player`): name, human flag, owned villagers, score. -/
structure Player where
  name : String
  is_human : Bool
  villagers : List Villager
  score : Nat
deriving DecidableEq

/-- The whole game state (`class Game`); the board is a 3-row, 5-column grid of
slots, a slot being `none` once its tile has sunk. -/
structure Game where
  board : List (List (Option Tile))
  players : List Player
  total_turns : Nat
  villager_counter : Nat
  game_end_reason : String
deriving DecidableEq

/-- `MAX_TURNS` in main.py. -/
def MAX_TURNS : Nat := 20

/-- Model of `random.choice`: index the list by the oracle modulo its length. -/
def pyChoice {α : Type} (l : List α) (i : Nat) : Option α :=
  l[i % l.length]?

/-- Fold step of Python `min(key=…)`: keep the accumulator unless the next
element's key is strictly smaller, so ties keep the earlier element. -/
def pyMinByAux {α : Type} (key : α → Int) (a : α) : List α → α
  | [] => a
  | x :: xs => pyMinByAux key (if key x < key a then x else a) xs

/-- Python `min(lst, key=…)`, `none` on the empty list. -/
def pyMinBy {α : Type} (l : List α) (key : α → Int) : Option α :=
  match l with
  | [] => none
  | x :: xs => some (pyMinByAux key x xs)

/-- Fold step of Python `max(key=…)`: replace the accumulator only when the
next element's key is strictly larger, so ties keep the earlier element. -/
def pyMaxByAux {α : Type} (key : α → Nat) (a : α) : List α → α
  | [] => a
  | x :: xs => pyMaxByAux key (if key a < key x then x else a) xs

/-- Python `max(lst, key=…)`, `none` on the empty list. -/
def pyMaxBy {α : Type} (l : List α) (key : α → Nat) : Option α :=
  match l with
  | [] => none
  | x :: xs => some (pyMaxByAux key x xs)

/-- Replace the element at one index of a list (Python mutates that single
object in place; every other entry is untouched). -/
def updateAt {α : Type} : List α → Nat → (α → α) → List α
  | [], _, _ => []
  | x :: xs, 0, f => f x :: xs
  | x :: xs, n + 1, f => x :: updateAt xs n f

/-- `Game.get_all_tiles`: every non-sunk tile of the board, row-major. -/
def Game.get_all_tiles (g : Game) : List Tile :=
  g.board.flatten.filterMap id

/-- `Game.all_tiles_sunk`: no slot holds a tile any more. -/
def Game.all_tiles_sunk (g : Game) : Bool :=
  g.get_all_tiles.isEmpty

/-- The slot of the board at row `r`, column `c`. -/
def slotAt (g : Game) (r c : Nat) : Option Tile :=
  ((g.board[r]?).bind fun row => row[c]?).join

/-- Apply an update to every board tile carrying the given id (in Python the
id picks out one object; ids are unique in every state the program builds). -/
def updateTileOnBoard (board : List (List (Option Tile))) (tid : Nat)
    (f : Tile → Tile) : List (List (Option Tile)) :=
  board.map fun row => row.map fun slot =>
    slot.map fun t => if t.id == tid then f t else t

/-- `self.board[r][c] = None` for the slot holding the tile of the given id. -/
def removeTileFromBoard (board : List (List (Option Tile))) (tid : Nat) :
    List (List (Option Tile)) :=
  board.map fun row => row.map fun slot =>
    slot.bind fun t => if t.id == tid then none else some t

/-! ### Movement phase (`Game.player_move_phase`, main.py lines 265-363)

The per-phase locals are `points` (the 3-point budget) and `water_moved`
(the per-turn already-moved-in-water marker set), both initialised afresh at
the start of every player's movement phase. -/

/-- The locals of one movement phase: `points = 3` and `water_moved = set()`
at phase start. -/
structure PhaseLocals where
  points : Int
  water_moved : List Nat
deriving DecidableEq

/-- The initial phase locals (`points = 3`, `water_moved = set()`). -/
def phaseStart : PhaseLocals := { points := 3, water_moved := [] }

/-- Look a villager up in a player's list by id (first match, as Python's
`next(v for v in player.villagers if v.id == vid)` does). -/
def getVillager (g : Game) (pi vid : Nat) : Option Villager :=
  match g.players[pi]? with
  | none => none
  | some p => p.villagers.find? fun v => v.id == vid

/-- Write a villager value back through its id inside one player (the Python
code mutates the single object carrying that id). -/
def writeVillager (g : Game) (pi vid : Nat) (x : Villager) : Game :=
  { g with players := updateAt g.players pi fun p =>
      { p with villagers := p.villagers.map fun w => if w.id == vid then x else w } }

/-- Does the player have any villager in a movable state?  (`any(v.state in
["land", "water"] for v in player.villagers)`.) -/
def anyMovableB (g : Game) (pi : Nat) : Bool :=
  match g.players[pi]? with
  | none => false
  | some p => p.villagers.any fun v =>
      decide (v.state = VState.land) || decide (v.state = VState.water)

/-- The shared tail of one movement action (main.py lines 307-318 for the
human branch, 349-358 for the computer branch): deduct the moved amount from
the distance and the points; on reaching distance ≤ 0 the villager becomes
safe and is removed from its tile's occupant list (its own `tile` field is
not written); otherwise an in-water mover is marked in `water_moved`. -/
def move_action (g : Game) (pi vid : Nat) (m : Int) (st : PhaseLocals) :
    Game × PhaseLocals :=
  match getVillager g pi vid with
  | none => (g, st)
  | some v =>
    let d : Int := v.distance_remaining - m
    let pts : Int := st.points - m
    if d ≤ 0 then
      let g1 := writeVillager g pi vid { v with distance_remaining := d, state := VState.safe }
      let g2 := match v.tile with
        | some tid =>
            { g1 with board := updateTileOnBoard g1.board tid fun t =>
                { t with villagers := t.villagers.erase vid } }
        | none => g1
      (g2, { st with points := pts })
    else
      let g1 := writeVillager g pi vid { v with distance_remaining := d }
      let st2 := if v.state = VState.water
        then { points := pts, water_moved := vid :: st.water_moved }
        else { st with points := pts }
      (g1, st2)

/-- Validity of one human move decision, i.e. what the interactive loop of
lines 277-306 lets through: positive budget, a villager of the player that
is on land or in water, not an in-water villager already moved this turn,
and an amount in `1..max_move` where `max_move` is `min(points, distance)`
on land and `1` in water (with the `max_move <= 0` re-prompt guard). -/
def human_ok (g : Game) (pi vid : Nat) (m : Int) (st : PhaseLocals) : Bool :=
  match getVillager g pi vid with
  | none => false
  | some v =>
    decide (0 < st.points) &&
    (decide (v.state = VState.land) || decide (v.state = VState.water)) &&
    !(decide (v.state = VState.water) && decide (vid ∈ st.water_moved)) &&
    decide (0 < (if v.state = VState.land
      then min st.points v.distance_remaining else 1)) &&
    decide (1 ≤ m) &&
    decide (m ≤ (if v.state = VState.land
      then min st.points v.distance_remaining else 1))

/-- One pass of the human movement loop, driven by a script of decisions:
`none` declines and ends the phase, `some (vid, m)` is the outcome of the
id/amount prompts (the prompts re-ask until valid, so an entry failing
`human_ok` corresponds to the `continue` branches and moves nothing). -/
def human_phase_go (g : Game) (pi : Nat) (st : PhaseLocals) :
    List (Option (Nat × Int)) → Game × PhaseLocals
  | [] => (g, st)
  | cmd :: rest =>
    if 0 < st.points ∧ anyMovableB g pi = true then
      match cmd with
      | none => (g, st)
      | some (vid, m) =>
        if human_ok g pi vid m st then
          let r := move_action g pi vid m st
          human_phase_go r.1 pi r.2 rest
        else human_phase_go g pi st rest
    else (g, st)

/-- `comp_movable`: the player's villagers in a movable state. -/
def comp_movable (p : Player) : List Villager :=
  p.villagers.filter fun v =>
    decide (v.state = VState.land) || decide (v.state = VState.water)

/-- `land_only`: the movable villagers that are on land (the fallback list
when the closest villager is in water and already moved). -/
def landOnly (p : Player) : List Villager :=
  (comp_movable p).filter fun v => decide (v.state = VState.land)

/-- The computer decision of one loop iteration (main.py lines 322-347):
the movable villager of smallest remaining distance; if that one is in
water and already moved this turn, the on-land villager of smallest
remaining distance instead (none ends the phase); the amount is
`min(points, distance)` on land (ending the phase when that is ≤ 0) and 1
in water. -/
def comp_step (p : Player) (st : PhaseLocals) : Option (Nat × Int) :=
  match pyMinBy (comp_movable p) (fun v => v.distance_remaining) with
  | none => none
  | some v0 =>
    let vsel :=
      if decide (v0.state = VState.water) && st.water_moved.contains v0.id then
        pyMinBy (landOnly p) (fun v => v.distance_remaining)
      else some v0
    match vsel with
    | none => none
    | some v =>
      if v.state = VState.land then
        let mm : Int := min st.points v.distance_remaining
        if mm ≤ 0 then none else some (v.id, mm)
      else
        if st.water_moved.contains v.id then none
        else some (v.id, 1)

/-- The computer movement loop.  The fuel only caps the iteration count and
never bites: each iteration spends at least one of the 3 starting points,
so at most 3 iterations run before the loop condition fails. -/
def comp_phase_go : Nat → Game → Nat → PhaseLocals → Game × PhaseLocals
  | 0, g, _, st => (g, st)
  | fuel + 1, g, pi, st =>
    if 0 < st.points ∧ anyMovableB g pi = true then
      match g.players[pi]? with
      | none => (g, st)
      | some p =>
        match comp_step p st with
        | none => (g, st)
        | some (vid, m) =>
          let r := move_action g pi vid m st
          comp_phase_go fuel r.1 pi r.2
    else (g, st)

/-- `Game.player_move_phase`: fresh locals (3 points, empty water marker),
then the interactive loop for a human seat and the greedy loop otherwise. -/
def player_move_phase (g : Game) (pi : Nat) (script : List (Option (Nat × Int))) :
    Game :=
  match g.players[pi]? with
  | none => g
  | some p =>
    if p.is_human then (human_phase_go g pi phaseStart script).1
    else (comp_phase_go 4 g pi phaseStart).1

/-! ### Tile sinking (`Game.sink_tile`, main.py lines 396-424) -/

/-- The tiles of one danger tier, e.g. `beach_tiles` in `sink_tile`. -/
def tierFilter (ty : TileType) (tiles : List Tile) : List Tile :=
  tiles.filter fun t => decide (t.type = ty)

/-- The candidate list `sink_tile` draws from: the first nonempty tier in the
order beach, forest, mountain, volcano. -/
def sinkCandidates (tiles : List Tile) : List Tile :=
  if !(tierFilter TileType.beach tiles).isEmpty then tierFilter TileType.beach tiles
  else if !(tierFilter TileType.forest tiles).isEmpty then tierFilter TileType.forest tiles
  else if !(tierFilter TileType.mountain tiles).isEmpty then tierFilter TileType.mountain tiles
  else tierFilter TileType.volcano tiles

/-- The tile `sink_tile` picks, given the sink oracle. -/
def sink_tile_choice (g : Game) (i : Nat) : Option Tile :=
  pyChoice (sinkCandidates g.get_all_tiles) i

/-- The mutation part of `sink_tile`: every on-land occupant of the tile
falls into the water (state → water, tile reference → none), then the slot
is emptied.  The `Tile` value itself is not written to: the Python code
never clears `tile.villagers`. -/
def sink_apply (g : Game) (t : Tile) : Game :=
  { g with
    players := g.players.map fun p =>
      { p with villagers := p.villagers.map fun v =>
          if t.villagers.contains v.id && decide (v.state = VState.land)
          then { v with state := VState.water, tile := none }
          else v },
    board := removeTileFromBoard g.board t.id }

/-- `Game.sink_tile`; the second component reports which tile sank (as the
code leaves the object: in particular with its occupant list untouched),
`none` when no tile was left to sink. -/
def sink_tile (g : Game) (i : Nat) : Game × Option Tile :=
  match sink_tile_choice g i with
  | none => (g, none)
  | some t => (sink_apply g t, some t)

/-! ### Creature phase (`Game.creature_phase`, main.py lines 426-445) -/

/-- The in-water villagers of all players, in player order then ownership
order — exactly the `all_water` list the creature phase builds. -/
def all_water_villagers (g : Game) : List Villager :=
  g.players.flatMap fun p =>
    p.villagers.filter fun v => decide (v.state = VState.water)

/-- `victim.state = "dead"`: the villager object with the given id dies. -/
def kill_villager (g : Game) (vid : Nat) : Game :=
  { g with
    players := g.players.map fun p =>
      { p with villagers := p.villagers.map fun v =>
          if v.id == vid then { v with state := VState.dead } else v } }

/-- `Game.creature_phase`, with the die roll and the victim choice as
oracles: on a roll of 1 or 2 one in-water villager (if any) dies, otherwise
nothing changes. -/
def creature_phase (g : Game) (roll : Nat) (i : Nat) : Game :=
  if roll = 1 ∨ roll = 2 then
    match pyChoice (all_water_villagers g) i with
    | some victim => kill_villager g victim.id
    | none => g
  else g

/-! ### Board construction and placement (`Game.__init__` and `Game.setup`) -/

/-- The tile type of a non-center cell: `remaining_types` is consumed one
entry per cell in construction order, skipping the center (cell index 7 in
row-major order), so cell `idx` takes entry `idx` before the center and
entry `idx - 1` after it.  The list parameter is the draw order of the
shuffled pool (Python pops the shuffled list from its tail). -/
def typeAt (ts : List TileType) (idx : Nat) : TileType :=
  (ts[if idx < 7 then idx else idx - 1]?).getD TileType.beach

/-- The 3×5 starting board: tile ids 1..15 row-major, the center cell
(row 1, column 2) a volcano, every other cell drawn from the pool. -/
def init_board (ts : List TileType) : List (List (Option Tile)) :=
  (List.range 3).map fun r =>
    (List.range 5).map fun c =>
      if r = 1 ∧ c = 2 then some (mkTile (5 * r + c + 1) TileType.volcano)
      else some (mkTile (5 * r + c + 1) (typeAt ts (5 * r + c)))

/-- `Game.__init__`: three fixed players (one human then two computers), the
fresh board, zero turns, villager counter 1, empty end reason. -/
def Game.init (ts : List TileType) : Game :=
  { board := init_board ts,
    players :=
      [ { name := "Human", is_human := true, villagers := [], score := 0 },
        { name := "Computer1", is_human := false, villagers := [], score := 0 },
        { name := "Computer2", is_human := false, villagers := [], score := 0 } ],
    total_turns := 0,
    villager_counter := 1,
    game_end_reason := "" }

/-- `valid_tiles` in `setup`: the non-sunk tiles with occupancy strictly
below capacity. -/
def valid_tiles (g : Game) : List Tile :=
  g.get_all_tiles.filter fun t => decide (t.villagers.length < t.capacity)

/-- Placing one villager on a chosen tile (main.py lines 207-212): a fresh
villager with the next id, the player's name as owner, state on-land,
remaining distance the tile's distance, and the tile reference set; it is
appended to the owner's list and its id to the tile's occupant list, and
the villager counter advances. -/
def place_villager (g : Game) (pi : Nat) (t : Tile) (treasure : Nat) : Game :=
  let owner := ((g.players[pi]?).map Player.name).getD ""
  let v : Villager :=
    { id := g.villager_counter, owner := owner, treasure := treasure,
      state := VState.land, distance_remaining := (t.distance : Int),
      tile := some t.id }
  { g with
    players := updateAt g.players pi fun p => { p with villagers := p.villagers ++ [v] },
    board := updateTileOnBoard g.board t.id fun tl =>
      { tl with villagers := tl.villagers ++ [v.id] },
    villager_counter := g.villager_counter + 1 }

/-- One placement attempt of `setup` with a random (or fallback) tile
choice; the Bool flags the "No available tiles to place a villager!"
abort, which leaves the game unchanged and is not an error. -/
def setup_place_one (g : Game) (pi : Nat) (treasure choice : Nat) : Game × Bool :=
  match pyChoice (valid_tiles g) choice with
  | none => (g, true)
  | some t => (place_villager g pi t treasure, false)

/-- The placement loop for one player, carrying the exhaustion flag. -/
def setup_player_go (pi : Nat) : Game × Bool → List (Nat × Nat) → Game × Bool
  | acc, [] => acc
  | acc, e :: rest =>
    let r := setup_place_one acc.1 pi e.1 e.2
    setup_player_go pi (r.1, acc.2 || r.2) rest

/-- Placement of one player's 10 villagers, the oracle supplying each
villager's treasure draw and tile choice.  The flag records whether any
attempt found no occupiable tile (exhaustion is permanent during setup, so
attempting the remaining entries equals Python's `break`). -/
def setup_player (g : Game) (pi : Nat) (oracle : List (Nat × Nat)) : Game × Bool :=
  setup_player_go pi (g, false) oracle

/-- The id block `start, start+1, …, start+n-1` that sequential placement
hands out. -/
def idsFrom (start : Nat) : Nat → List Nat
  | 0 => []
  | n + 1 => start :: idsFrom (start + 1) n

/-- The villager ids a player owns, in ownership order. -/
def playerIds (p : Player) : List Nat :=
  p.villagers.map Villager.id

/-- `Game.setup`: place 10 villagers for every player in player order; the
flag records whether placement ever ran out of occupiable tiles. -/
def setup (g : Game) (oracles : List (List (Nat × Nat))) : Game × Bool :=
  (List.range g.players.length).foldl
    (fun acc pi =>
      let r := setup_player acc.1 pi (oracles.getD pi [])
      (r.1, acc.2 || r.2))
    (g, false)

/-! ### Turn controller and scoring (`Game.play`, main.py lines 450-503) -/

/-- The end reason set whenever the all-tiles-sunk check fires. -/
def sunkReason : String := "All tiles have sunk!"

/-- The end reason of the round-limit check (line 484). -/
def eruptReason : String := "Reached maximum turns (volcano erupts)!"

/-- One player's slice of a round (the body of the `for player` loop,
lines 464-481): the all-tiles-sunk check before the turn, after the
movement phase and after the sink; each firing stores the sunk reason and
ends the game, short-circuiting the rest of the round. -/
def player_turn (g : Game) (pi : Nat) (script : List (Option (Nat × Int)))
    (si roll ci : Nat) : Game × Bool :=
  if g.all_tiles_sunk then ({ g with game_end_reason := sunkReason }, true)
  else
    let g1 := player_move_phase g pi script
    if g1.all_tiles_sunk then ({ g1 with game_end_reason := sunkReason }, true)
    else
      let g2 := (sink_tile g1 si).1
      if g2.all_tiles_sunk then ({ g2 with game_end_reason := sunkReason }, true)
      else (creature_phase g2 roll ci, false)

/-- The `for player in self.players` loop of one round, with per-player
oracles; once the game is over the remaining players are skipped. -/
def players_loop (g : Game) (scripts : List (List (Option (Nat × Int))))
    (sinks : List Nat) (rolls : List (Nat × Nat)) : Game × Bool :=
  (List.range g.players.length).foldl
    (fun acc pi =>
      if acc.2 then acc
      else player_turn acc.1 pi (scripts.getD pi [])
        (sinks.getD pi 0) (rolls.getD pi (3, 0)).1 (rolls.getD pi (3, 0)).2)
    (g, false)

/-- One iteration of the `while not game_over` loop (lines 455-485): the
top-of-round all-sunk check, the turn-counter increment, the player loop,
and then the round-limit check, which fires only when the game is not
already over (`if self.total_turns >= MAX_TURNS and not game_over`). -/
def play_round (g : Game) (scripts : List (List (Option (Nat × Int))))
    (sinks : List Nat) (rolls : List (Nat × Nat)) : Game × Bool :=
  if g.all_tiles_sunk then ({ g with game_end_reason := sunkReason }, true)
  else
    let r := players_loop { g with total_turns := g.total_turns + 1 } scripts sinks rolls
    if MAX_TURNS ≤ r.1.total_turns ∧ r.2 = false then
      ({ r.1 with game_end_reason := eruptReason }, true)
    else r

/-- The villagers of a player that reached safety (`safe_villagers`). -/
def safeVillagers (p : Player) : List Villager :=
  p.villagers.filter fun v => decide (v.state = VState.safe)

/-- A player's final score: the treasure sum over safe villagers. -/
def playerScore (p : Player) : Nat :=
  ((safeVillagers p).map Villager.treasure).sum

/-- The score-assignment loop at game end (lines 494-499). -/
def compute_scores (g : Game) : Game :=
  { g with players := g.players.map fun p => { p with score := playerScore p } }

/-- The winner declaration (line 501): Python's `max` over the players by
score, which keeps the first player among equal top scores. -/
def winner (g : Game) : Option Player :=
  pyMaxBy g.players fun p => p.score

/-! ### The movement-phase step relation (both decision sources)

One movement-phase iteration that actually moves a villager, for either
decision source.  An `Act` records the moved villager's id, the amount, and
the villager's state at the moment of the move.  Phases start from
`phaseStart` (3 points, empty water marker), as `player_move_phase`
initialises its locals. -/

/-- The record of one accepted move: villager id, amount, and the
villager's state at the time of the move. -/
structure Act where
  vid : Nat
  m : Int
  was : VState
deriving DecidableEq

/-- The villager ids of one player are pairwise distinct. -/
def NodupPIds (g : Game) (pi : Nat) : Prop :=
  ∀ p, g.players[pi]? = some p → (p.villagers.map Villager.id).Nodup

/-- The villager a player's list holds under this id is safe. -/
def isSafeAt (g : Game) (pi vid : Nat) : Prop :=
  ∃ v, getVillager g pi vid = some v ∧ v.state = VState.safe

/-- One accepted move of the phase loop: the human branch applies a
scripted decision that passes the prompt validation `human_ok`; the
computer branch applies the `comp_step` decision under the loop's
points condition.  Both end in the shared `move_action` mutation. -/
inductive PhaseStep (pi : Nat) :
    Game × PhaseLocals → Act → Game × PhaseLocals → Prop where
  | human (g : Game) (st : PhaseLocals) (vid : Nat) (m : Int) (v : Villager)
      (p : Player) :
      g.players[pi]? = some p → p.is_human = true →
      human_ok g pi vid m st = true →
      getVillager g pi vid = some v →
      PhaseStep pi (g, st) ⟨vid, m, v.state⟩ (move_action g pi vid m st)
  | comp (g : Game) (st : PhaseLocals) (vid : Nat) (m : Int) (v : Villager)
      (p : Player) :
      g.players[pi]? = some p → p.is_human = false →
      0 < st.points →
      comp_step p st = some (vid, m) →
      getVillager g pi vid = some v →
      PhaseStep pi (g, st) ⟨vid, m, v.state⟩ (move_action g pi vid m st)

/-- A run of accepted moves within one movement phase. -/
inductive PhaseTrace (pi : Nat) :
    Game × PhaseLocals → List Act → Game × PhaseLocals → Prop where
  | nil (s : Game × PhaseLocals) : PhaseTrace pi s [] s
  | cons (s s₁ s₂ : Game × PhaseLocals) (a : Act) (as : List Act) :
      PhaseStep pi s a s₁ → PhaseTrace pi s₁ as s₂ →
      PhaseTrace pi s (a :: as) s₂

/-! ### The step relation over game states

`GStep` collects every mutation the program performs on the game state:
one villager placement during setup, one movement action of either decision
source, one tile sink, one creature attack.  `legal_move` gathers the
conditions both movement branches establish before mutating (the human
branch through its prompt loops, the computer branch through `comp_step`),
so the relation over-approximates the program's real interleavings — sound
for invariant claims. -/

/-- What both movement branches guarantee about an accepted move: the
villager exists and is movable, the budget is positive, the amount is at
least 1, at most `min(points, distance)` on land, and exactly 1 in water
for a villager not yet moved in water this turn. -/
def legal_move (g : Game) (pi vid : Nat) (m : Int) (st : PhaseLocals)
    (v : Villager) : Prop :=
  getVillager g pi vid = some v ∧
  (v.state = VState.land ∨ v.state = VState.water) ∧
  0 < st.points ∧ 1 ≤ m ∧
  (v.state = VState.land → m ≤ min st.points v.distance_remaining) ∧
  (v.state = VState.water → m = 1 ∧ vid ∉ st.water_moved)

/-- One engine mutation. -/
inductive GStep : Game → Game → Prop where
  | place (g : Game) (pi : Nat) (t : Tile) (treasure : Nat) :
      pi < g.players.length → t ∈ valid_tiles g →
      1 ≤ treasure → treasure ≤ 6 →
      GStep g (place_villager g pi t treasure)
  | move (g : Game) (pi vid : Nat) (m : Int) (st : PhaseLocals) (v : Villager) :
      legal_move g pi vid m st v →
      GStep g (move_action g pi vid m st).1
  | sink (g : Game) (i : Nat) :
      GStep g (sink_tile g i).1
  | creature (g : Game) (roll i : Nat) :
      GStep g (creature_phase g roll i)

/-- A state the engine can be in: some chain of engine mutations from the
freshly constructed game (any shuffle oracle). -/
def Reachable (g : Game) : Prop :=
  ∃ ts : List TileType, Relation.ReflTransGen GStep (Game.init ts) g

/-- All villager ids, players in order. -/
def VillIds (g : Game) : List Nat :=
  g.players.flatMap fun p => p.villagers.map Villager.id

/-- The state invariant the preservation proof carries: pairwise distinct
tile ids; every tile within capacity 3 and of positive distance; every
villager id below the villager counter, all villager ids distinct; and the
distance/safe biconditional for every villager. -/
def Inv (g : Game) : Prop :=
  (g.get_all_tiles.map Tile.id).Nodup ∧
  (∀ t ∈ g.get_all_tiles,
    t.villagers.length ≤ t.capacity ∧ t.capacity = 3 ∧ 0 < t.distance) ∧
  (∀ vid ∈ VillIds g, vid < g.villager_counter) ∧
  (VillIds g).Nodup ∧
  (∀ p ∈ g.players, ∀ v ∈ p.villagers,
    (v.distance_remaining ≤ 0 ↔ v.state = VState.safe))

/-- All villagers of all players, in player order. -/
def allVillagers (g : Game) : List Villager :=
  g.players.flatMap Player.villagers

/-- A two-tile board used to witness the tier-priority theorem. -/
def c4Game : Game :=
  { board := [[some (mkTile 1 TileType.beach), some (mkTile 2 TileType.forest)]],
    players := [], total_turns := 0, villager_counter := 1, game_end_reason := "" }

/-- A concrete draw order for the shuffled pool (7 beach, 4 forest,
3 mountain), used by the concrete witnesses. -/
def ts0 : List TileType :=
  [TileType.beach, TileType.beach, TileType.beach, TileType.beach,
   TileType.beach, TileType.beach, TileType.beach,
   TileType.forest, TileType.forest, TileType.forest, TileType.forest,
   TileType.mountain, TileType.mountain, TileType.mountain]

instance legal_move_decidable (g : Game) (pi vid : Nat) (m : Int)
    (st : PhaseLocals) (v : Villager) :
    Decidable (legal_move g pi vid m st v) := by
  unfold legal_move
  infer_instance

/-- The volcano tile of the fresh board built from the `ts0` draw order. -/
def c1Tile : Tile := mkTile 8 TileType.volcano

/-- The fresh game with one villager placed on the volcano (distance 1). -/
def c1Mid : Game := place_villager (Game.init ts0) 0 c1Tile 1

/-- That villager, as placement creates it. -/
def c1V : Villager :=
  { id := 1, owner := "Human", treasure := 1, state := VState.land,
    distance_remaining := 1, tile := some 8 }

/-- The game after moving that villager one step, which makes it safe. -/
def c1End : Game := (move_action c1Mid 0 1 1 phaseStart).1

/-- A one-tile board whose tile carries one on-land occupant. -/
def c3Tile : Tile :=
  { id := 1, type := TileType.beach, distance := 3, villagers := [1],
    capacity := 3 }

/-- A small game holding `c3Tile` and its occupant villager. -/
def c3Game : Game :=
  { board := [[some c3Tile]],
    players := [{ name := "Human", is_human := true,
                  villagers := [{ id := 1, owner := "Human", treasure := 1,
                                  state := VState.land,
                                  distance_remaining := 3, tile := some 1 }],
                  score := 0 }],
    total_turns := 0, villager_counter := 2, game_end_reason := "" }

/-- A small game with one in-water villager and one dead villager. -/
def c5Game : Game :=
  { board := [[]],
    players := [{ name := "Human", is_human := true,
                  villagers :=
                    [{ id := 1, owner := "Human", treasure := 4,
                       state := VState.water, distance_remaining := 2,
                       tile := none },
                     { id := 2, owner := "Human", treasure := 5,
                       state := VState.dead, distance_remaining := 1,
                       tile := none }],
                  score := 0 }],
    total_turns := 0, villager_counter := 3, game_end_reason := "" }

/-- Three players with a tied top score, to witness the scoring theorem. -/
def c9Game : Game :=
  { board := [[]],
    players :=
      [{ name := "Human", is_human := true,
         villagers := [{ id := 1, owner := "Human", treasure := 4,
                         state := VState.safe, distance_remaining := 0,
                         tile := none }],
         score := 0 },
       { name := "Computer1", is_human := false,
         villagers := [{ id := 2, owner := "Computer1", treasure := 4,
                         state := VState.safe, distance_remaining := 0,
                         tile := none },
                       { id := 3, owner := "Computer1", treasure := 2,
                         state := VState.dead, distance_remaining := 1,
                         tile := none }],
         score := 0 },
       { name := "Computer2", is_human := false, villagers := [], score := 0 }],
    total_turns := 20, villager_counter := 4, game_end_reason := "" }

/-- The fresh 15-tile board at round 19 with no villagers: round 20 runs to
its end without sinking everything, so the round limit fires. -/
def c2AGame : Game := { Game.init ts0 with total_turns := 19 }

/-- A three-tile board at round 19 with no villagers: the three sinks of
round 20 exhaust the board exactly when the round limit is reached. -/
def c2BGame : Game :=
  { Game.init ts0 with
    board := [[some (mkTile 1 TileType.mountain),
               some (mkTile 2 TileType.mountain),
               some (mkTile 3 TileType.mountain)]],
    total_turns := 19 }

/-- A computer player with two on-land villagers, distances 2 and 1. -/
def c8Player : Player :=
  { name := "Computer1", is_human := false,
    villagers :=
      [{ id := 1, owner := "Computer1", treasure := 3, state := VState.land,
         distance_remaining := 2, tile := some 1 },
       { id := 2, owner := "Computer1", treasure := 6, state := VState.land,
         distance_remaining := 1, tile := some 2 }],
    score := 0 }

/-- Ten placements with treasure 1 and the first occupiable tile each. -/
def c10Oracle : List (Nat × Nat) := List.replicate 10 (1, 0)

/-- A single in-water villager, far from safety. -/
def c6Vill : Villager :=
  { id := 1, owner := "Computer1", treasure := 2, state := VState.water,
    distance_remaining := 5, tile := none }

/-- One computer player owning only that villager. -/
def c6Player : Player :=
  { name := "Computer1", is_human := false, villagers := [c6Vill], score := 0 }

/-- One computer player with a single in-water villager, far from safety. -/
def c6Game : Game :=
  { board := [[]], players := [c6Player],
    total_turns := 0, villager_counter := 2, game_end_reason := "" }

theorem villIds_eq (g : Game) : VillIds g = (allVillagers g).map Villager.id := by
  unfold VillIds allVillagers
  rw [List.map_flatMap]

theorem mem_allVillagers {g : Game} {p : Player} {v : Villager}
    (hp : p ∈ g.players) (hv : v ∈ p.villagers) : v ∈ allVillagers g :=
  List.mem_flatMap.mpr ⟨p, hp, hv⟩

/-- Under distinct villager ids, an id determines the villager value. -/
theorem villager_id_inj {g : Game} (hnd : (VillIds g).Nodup)
    {v w : Villager} (hv : v ∈ allVillagers g) (hw : w ∈ allVillagers g)
    (hid : v.id = w.id) : v = w := by
  rw [villIds_eq] at hnd
  exact List.inj_on_of_nodup_map hnd hv hw hid

theorem getVillager_spec {g : Game} {pi vid : Nat} {v : Villager}
    (h : getVillager g pi vid = some v) :
    ∃ p, g.players[pi]? = some p ∧ v ∈ p.villagers ∧ v.id = vid := by
  unfold getVillager at h
  cases hp : g.players[pi]? with
  | none => rw [hp] at h; cases h
  | some p =>
    rw [hp] at h
    refine ⟨p, rfl, List.mem_of_find?_eq_some h, ?_⟩
    have := List.find?_some h
    simpa using this

/-! ### Basic facts about the oracle helpers -/

theorem pyChoice_mem {α : Type} (l : List α) (i : Nat) (x : α)
    (h : pyChoice l i = some x) : x ∈ l := by
  unfold pyChoice at h
  exact List.getElem?_mem h

theorem pyChoice_isSome {α : Type} (l : List α) (i : Nat) (h : l ≠ []) :
    ∃ x, pyChoice l i = some x ∧ x ∈ l := by
  unfold pyChoice
  have hlen : 0 < l.length := List.length_pos.mpr h
  have hlt : i % l.length < l.length := Nat.mod_lt _ hlen
  exact ⟨l[i % l.length], List.getElem?_eq_getElem hlt, List.getElem_mem hlt⟩

theorem pyChoice_nil {α : Type} (i : Nat) : pyChoice ([] : List α) i = none := rfl

/-! ### List helper lemmas -/

theorem updateAt_of_le {α : Type} (l : List α) (i : Nat) (f : α → α)
    (h : l.length ≤ i) : updateAt l i f = l := by
  induction l generalizing i with
  | nil => rfl
  | cons x xs ih =>
    cases i with
    | zero => simp at h
    | succ n =>
      simp only [updateAt]
      rw [ih n (by simpa using h)]

theorem updateAt_decomp {α : Type} (l : List α) (i : Nat) (f : α → α)
    (h : i < l.length) :
    ∃ l₁ x l₂, l = l₁ ++ x :: l₂ ∧ l₁.length = i ∧
      updateAt l i f = l₁ ++ f x :: l₂ := by
  induction l generalizing i with
  | nil => simp at h
  | cons y ys ih =>
    cases i with
    | zero => exact ⟨[], y, ys, rfl, rfl, rfl⟩
    | succ n =>
      obtain ⟨l₁, x, l₂, hsplit, hlen, hupd⟩ := ih n (by simpa using h)
      exact ⟨y :: l₁, x, l₂, by simp [hsplit], by simp [hlen],
        by simp [updateAt, hupd]⟩

theorem mem_updateAt {α : Type} {l : List α} {i : Nat} {f : α → α} {a : α}
    (h : a ∈ updateAt l i f) : a ∈ l ∨ ∃ b ∈ l, a = f b := by
  induction l generalizing i with
  | nil => simp [updateAt] at h
  | cons y ys ih =>
    cases i with
    | zero =>
      simp only [updateAt, List.mem_cons] at h
      rcases h with h | h
      · exact Or.inr ⟨y, List.mem_cons_self _ _, h⟩
      · exact Or.inl (List.mem_cons_of_mem _ h)
    | succ n =>
      simp only [updateAt, List.mem_cons] at h
      rcases h with h | h
      · exact Or.inl (h ▸ List.mem_cons_self _ _)
      · rcases ih h with h' | ⟨b, hb, hab⟩
        · exact Or.inl (List.mem_cons_of_mem _ h')
        · exact Or.inr ⟨b, List.mem_cons_of_mem _ hb, hab⟩

theorem getElem?_updateAt {α : Type} (l : List α) (i : Nat) (f : α → α)
    (j : Nat) :
    (updateAt l i f)[j]? = if j = i then (l[j]?).map f else l[j]? := by
  induction l generalizing i j with
  | nil => simp [updateAt]
  | cons y ys ih =>
    cases i with
    | zero =>
      cases j with
      | zero => simp [updateAt]
      | succ k => simp [updateAt]
    | succ n =>
      cases j with
      | zero => simp [updateAt]
      | succ k => simpa [updateAt] using ih n k

theorem length_updateAt {α : Type} (l : List α) (i : Nat) (f : α → α) :
    (updateAt l i f).length = l.length := by
  induction l generalizing i with
  | nil => rfl
  | cons y ys ih =>
    cases i with
    | zero => simp [updateAt]
    | succ n => simp [updateAt, ih n]

theorem flatten_map_map {α β : Type} (k : α → β) (b : List (List α)) :
    (b.map fun row => row.map k).flatten = b.flatten.map k := by
  induction b with
  | nil => rfl
  | cons row rows ih =>
    simp only [List.map_cons, List.flatten_cons, List.map_append, ih]

theorem filterMap_id_map_optionMap {α β : Type} (k : α → β)
    (xs : List (Option α)) :
    (xs.map (Option.map k)).filterMap id = (xs.filterMap id).map k := by
  induction xs with
  | nil => rfl
  | cons x xs ih =>
    cases x with
    | none => simpa using ih
    | some a => simp [ih]

theorem filterMap_id_map_removal (tid : Nat) (xs : List (Option Tile)) :
    (xs.map fun slot =>
      slot.bind fun t => if t.id == tid then none else some t).filterMap id
    = (xs.filterMap id).filter fun t => !(t.id == tid) := by
  induction xs with
  | nil => rfl
  | cons x xs ih =>
    cases x with
    | none => simpa using ih
    | some t =>
      by_cases h : t.id = tid
      · simpa [h] using ih
      · simpa [h] using ih

theorem get_all_tiles_updateTile (b : List (List (Option Tile))) (tid : Nat)
    (f : Tile → Tile) :
    (updateTileOnBoard b tid f).flatten.filterMap id
    = (b.flatten.filterMap id).map fun t => if t.id == tid then f t else t := by
  unfold updateTileOnBoard
  rw [flatten_map_map, ← filterMap_id_map_optionMap]

theorem get_all_tiles_removeTile (b : List (List (Option Tile))) (tid : Nat) :
    (removeTileFromBoard b tid).flatten.filterMap id
    = (b.flatten.filterMap id).filter fun t => !(t.id == tid) := by
  unfold removeTileFromBoard
  rw [flatten_map_map, ← filterMap_id_map_removal]

theorem tierFilter_ne_nil {ty : TileType} {tiles : List Tile} :
    tierFilter ty tiles ≠ [] ↔ ∃ t ∈ tiles, t.type = ty := by
  unfold tierFilter
  constructor
  · intro h
    obtain ⟨t, ht⟩ := List.exists_mem_of_ne_nil _ h
    have := List.mem_filter.mp ht
    exact ⟨t, this.1, by simpa using this.2⟩
  · rintro ⟨t, ht, hty⟩ hnil
    have : t ∈ tiles.filter fun t => decide (t.type = ty) :=
      List.mem_filter.mpr ⟨ht, by simpa using hty⟩
    simp [hnil] at this

theorem tierFilter_mem {ty : TileType} {tiles : List Tile} {t : Tile}
    (h : t ∈ tierFilter ty tiles) : t ∈ tiles ∧ t.type = ty := by
  have := List.mem_filter.mp h
  exact ⟨this.1, by simpa using this.2⟩

theorem sink_tile_of_choice {g : Game} {i : Nat} {t : Tile}
    (h : sink_tile_choice g i = some t) : sink_tile g i = (sink_apply g t, some t) := by
  unfold sink_tile
  rw [h]

/-- Picking from a nonempty tier: the choice lands in that tier's filter. -/
theorem sinkChoice_of_tier {g : Game} (i : Nat) {ty : TileType}
    (hcand : sinkCandidates g.get_all_tiles = tierFilter ty g.get_all_tiles)
    (hne : tierFilter ty g.get_all_tiles ≠ []) :
    ∃ t, (sink_tile g i).2 = some t ∧ t ∈ g.get_all_tiles ∧ t.type = ty := by
  obtain ⟨x, hx, hxm⟩ := pyChoice_isSome _ i (hcand ▸ hne)
  have hchoice : sink_tile_choice g i = some x := by
    unfold sink_tile_choice
    exact hx
  have := tierFilter_mem (hcand ▸ hxm)
  exact ⟨x, by rw [sink_tile_of_choice hchoice], this.1, this.2⟩

theorem sinkCandidates_eq_beach {tiles : List Tile}
    (hb : tierFilter TileType.beach tiles ≠ []) :
    sinkCandidates tiles = tierFilter TileType.beach tiles := by
  unfold sinkCandidates
  simp [List.isEmpty_iff, hb]

theorem sinkCandidates_eq_forest {tiles : List Tile}
    (hb : tierFilter TileType.beach tiles = [])
    (hf : tierFilter TileType.forest tiles ≠ []) :
    sinkCandidates tiles = tierFilter TileType.forest tiles := by
  unfold sinkCandidates
  simp [List.isEmpty_iff, hb, hf]

theorem sinkCandidates_eq_mountain {tiles : List Tile}
    (hb : tierFilter TileType.beach tiles = [])
    (hf : tierFilter TileType.forest tiles = [])
    (hm : tierFilter TileType.mountain tiles ≠ []) :
    sinkCandidates tiles = tierFilter TileType.mountain tiles := by
  unfold sinkCandidates
  simp [List.isEmpty_iff, hb, hf, hm]

theorem sinkCandidates_eq_volcano {tiles : List Tile}
    (hb : tierFilter TileType.beach tiles = [])
    (hf : tierFilter TileType.forest tiles = [])
    (hm : tierFilter TileType.mountain tiles = []) :
    sinkCandidates tiles = tierFilter TileType.volcano tiles := by
  unfold sinkCandidates
  simp [List.isEmpty_iff, hb, hf, hm]

/-- Absence of a tier as a filter equation. -/
theorem tierFilter_eq_nil {ty : TileType} {tiles : List Tile}
    (h : ¬ ∃ t ∈ tiles, t.type = ty) : tierFilter ty tiles = [] := by
  by_contra hne
  exact h (tierFilter_ne_nil.mp hne)

/-- C4: the tile-sink phase draws its victim from the highest-priority
nonempty danger tier in the order beach > forest > mountain > volcano (so
while any beach tile remains it never selects another tier, and so on down
the order), and it is a no-op rather than an error when no tiles remain. -/
theorem c4_sink_tier_priority (g : Game) (i : Nat) :
    ((∃ t ∈ g.get_all_tiles, t.type = TileType.beach) →
       ∃ t, (sink_tile g i).2 = some t ∧ t ∈ g.get_all_tiles ∧
         t.type = TileType.beach) ∧
    ((¬ ∃ t ∈ g.get_all_tiles, t.type = TileType.beach) →
     (∃ t ∈ g.get_all_tiles, t.type = TileType.forest) →
       ∃ t, (sink_tile g i).2 = some t ∧ t ∈ g.get_all_tiles ∧
         t.type = TileType.forest) ∧
    ((¬ ∃ t ∈ g.get_all_tiles, t.type = TileType.beach) →
     (¬ ∃ t ∈ g.get_all_tiles, t.type = TileType.forest) →
     (∃ t ∈ g.get_all_tiles, t.type = TileType.mountain) →
       ∃ t, (sink_tile g i).2 = some t ∧ t ∈ g.get_all_tiles ∧
         t.type = TileType.mountain) ∧
    ((¬ ∃ t ∈ g.get_all_tiles, t.type = TileType.beach) →
     (¬ ∃ t ∈ g.get_all_tiles, t.type = TileType.forest) →
     (¬ ∃ t ∈ g.get_all_tiles, t.type = TileType.mountain) →
     (∃ t ∈ g.get_all_tiles, t.type = TileType.volcano) →
       ∃ t, (sink_tile g i).2 = some t ∧ t ∈ g.get_all_tiles ∧
         t.type = TileType.volcano) ∧
    (g.get_all_tiles = [] → sink_tile g i = (g, none)) := by
  refine ⟨?_, ?_, ?_, ?_, ?_⟩
  · intro hb
    exact sinkChoice_of_tier i
      (sinkCandidates_eq_beach (tierFilter_ne_nil.mpr hb)) (tierFilter_ne_nil.mpr hb)
  · intro hb hf
    exact sinkChoice_of_tier i
      (sinkCandidates_eq_forest (tierFilter_eq_nil hb) (tierFilter_ne_nil.mpr hf))
      (tierFilter_ne_nil.mpr hf)
  · intro hb hf hm
    exact sinkChoice_of_tier i
      (sinkCandidates_eq_mountain (tierFilter_eq_nil hb) (tierFilter_eq_nil hf)
        (tierFilter_ne_nil.mpr hm))
      (tierFilter_ne_nil.mpr hm)
  · intro hb hf hm hv
    exact sinkChoice_of_tier i
      (sinkCandidates_eq_volcano (tierFilter_eq_nil hb) (tierFilter_eq_nil hf)
        (tierFilter_eq_nil hm))
      (tierFilter_ne_nil.mpr hv)
  · intro hempty
    unfold sink_tile sink_tile_choice sinkCandidates tierFilter
    simp [hempty, pyChoice_nil]

/-! ### The invariant holds initially and is preserved by every step -/

theorem mem_init_tiles {ts : List TileType} {t : Tile}
    (h : t ∈ (Game.init ts).get_all_tiles) : ∃ k ty, t = mkTile k ty := by
  simp only [Game.init, Game.get_all_tiles, init_board] at h
  rw [List.mem_filterMap] at h
  obtain ⟨o, ho, hid⟩ := h
  rw [List.mem_flatten] at ho
  obtain ⟨row, hrow, ho2⟩ := ho
  rw [List.mem_map] at hrow
  obtain ⟨r, _, rfl⟩ := hrow
  rw [List.mem_map] at ho2
  obtain ⟨c, _, rfl⟩ := ho2
  simp only [id] at hid
  by_cases hrc : r = 1 ∧ c = 2
  · rw [if_pos hrc] at hid
    exact ⟨_, _, (Option.some_inj.mp hid).symm⟩
  · rw [if_neg hrc] at hid
    exact ⟨_, _, (Option.some_inj.mp hid).symm⟩

theorem mkTile_props (k : Nat) (ty : TileType) :
    (mkTile k ty).villagers.length ≤ (mkTile k ty).capacity ∧
      (mkTile k ty).capacity = 3 ∧ 0 < (mkTile k ty).distance := by
  cases ty <;> simp [mkTile, tileDistance]

theorem init_tile_ids (ts : List TileType) :
    (Game.init ts).get_all_tiles.map Tile.id
      = [1, 2, 3, 4, 5, 6, 7, 8, 9, 10, 11, 12, 13, 14, 15] := rfl

theorem villIds_init (ts : List TileType) : VillIds (Game.init ts) = [] := rfl

theorem inv_init (ts : List TileType) : Inv (Game.init ts) := by
  refine ⟨?_, ?_, ?_, ?_, ?_⟩
  · rw [init_tile_ids]
    decide
  · intro t ht
    obtain ⟨k, ty, rfl⟩ := mem_init_tiles ht
    exact mkTile_props k ty
  · intro vid hvid
    rw [villIds_init] at hvid
    cases hvid
  · rw [villIds_init]
    exact List.nodup_nil
  · intro p hp v hv
    have : p.villagers = [] := by
      simp only [Game.init, List.mem_cons, List.not_mem_nil, or_false] at hp
      rcases hp with rfl | rfl | rfl <;> rfl
    rw [this] at hv
    cases hv

theorem map_tile_id_of_preserve (tiles : List Tile) (k : Tile → Tile)
    (h : ∀ t, (k t).id = t.id) :
    (tiles.map k).map Tile.id = tiles.map Tile.id := by
  rw [List.map_map]
  exact List.map_congr_left fun t _ => h t

theorem map_vill_id_of_preserve (vs : List Villager) (k : Villager → Villager)
    (h : ∀ v, (k v).id = v.id) :
    (vs.map k).map Villager.id = vs.map Villager.id := by
  rw [List.map_map]
  exact List.map_congr_left fun v _ => h v

theorem villIds_updateAt_pres (ps : List Player) (pi : Nat) (f : Player → Player)
    (hf : ∀ p, (f p).villagers.map Villager.id = p.villagers.map Villager.id) :
    ((updateAt ps pi f).flatMap fun p => p.villagers.map Villager.id)
    = ps.flatMap fun p => p.villagers.map Villager.id := by
  induction ps generalizing pi with
  | nil => rfl
  | cons p ps ih =>
    cases pi with
    | zero =>
      show ((f p :: ps).flatMap fun p => p.villagers.map Villager.id) = _
      simp [hf]
    | succ n =>
      show ((p :: updateAt ps n f).flatMap fun p => p.villagers.map Villager.id) = _
      simp [ih n]

theorem villIds_map_pres (ps : List Player) (f : Player → Player)
    (hf : ∀ p, (f p).villagers.map Villager.id = p.villagers.map Villager.id) :
    ((ps.map f).flatMap fun p => p.villagers.map Villager.id)
    = ps.flatMap fun p => p.villagers.map Villager.id := by
  induction ps with
  | nil => rfl
  | cons p ps ih => simp [hf, ih]

theorem get_all_tiles_sink_apply (g : Game) (t : Tile) :
    (sink_apply g t).get_all_tiles
      = g.get_all_tiles.filter fun x => !(x.id == t.id) := by
  unfold sink_apply Game.get_all_tiles
  exact get_all_tiles_removeTile g.board t.id

theorem inv_sink_apply {g : Game} (t : Tile) (h : Inv g) : Inv (sink_apply g t) := by
  obtain ⟨hnd, htl, hbound, hvnd, hdist⟩ := h
  refine ⟨?_, ?_, ?_, ?_, ?_⟩
  · rw [get_all_tiles_sink_apply]
    exact ((List.filter_sublist _).map Tile.id).nodup hnd
  · intro x hx
    rw [get_all_tiles_sink_apply] at hx
    exact htl x (List.mem_filter.mp hx).1
  · intro vid hvid
    rw [VillIds] at hvid
    rw [show (sink_apply g t).players = g.players.map _ from rfl] at hvid
    rw [villIds_map_pres] at hvid
    · exact hbound vid hvid
    · intro p
      apply map_vill_id_of_preserve
      intro v
      split <;> rfl
  · rw [VillIds]
    rw [show (sink_apply g t).players = g.players.map _ from rfl]
    rw [villIds_map_pres]
    · exact hvnd
    · intro p
      apply map_vill_id_of_preserve
      intro v
      split <;> rfl
  · intro p' hp' v' hv'
    rw [show (sink_apply g t).players = g.players.map _ from rfl] at hp'
    obtain ⟨p, hp, rfl⟩ := List.mem_map.mp hp'
    obtain ⟨v, hv, rfl⟩ := List.mem_map.mp hv'
    have hold := hdist p hp v hv
    by_cases hc : (t.villagers.contains v.id && decide (v.state = VState.land)) = true
    · simp only [hc, if_true]
      have hland : v.state = VState.land := by
        have := (Bool.and_eq_true _ _).mp hc
        simpa using this.2
      constructor
      · intro hd
        exact absurd (hold.mp hd) (by rw [hland]; intro hh; cases hh)
      · intro hh
        cases hh
    · simp only [hc, if_false]
      exact hold

theorem inv_sink (g : Game) (i : Nat) (h : Inv g) : Inv (sink_tile g i).1 := by
  unfold sink_tile
  cases hc : sink_tile_choice g i with
  | none => exact h
  | some t => exact inv_sink_apply t h

theorem inv_creature (g : Game) (roll i : Nat) (h : Inv g) :
    Inv (creature_phase g roll i) := by
  unfold creature_phase
  by_cases hroll : roll = 1 ∨ roll = 2
  · rw [if_pos hroll]
    cases hv : pyChoice (all_water_villagers g) i with
    | none => exact h
    | some victim =>
      obtain ⟨hnd, htl, hbound, hvnd, hdist⟩ := h
      have hvictim : victim ∈ all_water_villagers g := pyChoice_mem _ _ _ hv
      have hvw : victim.state = VState.water := by
        unfold all_water_villagers at hvictim
        obtain ⟨p, _, hmem⟩ := List.mem_flatMap.mp hvictim
        have := (List.mem_filter.mp hmem).2
        simpa using this
      have hvall : victim ∈ allVillagers g := by
        unfold all_water_villagers at hvictim
        obtain ⟨p, hp, hmem⟩ := List.mem_flatMap.mp hvictim
        exact mem_allVillagers hp (List.mem_filter.mp hmem).1
      refine ⟨?_, ?_, ?_, ?_, ?_⟩
      · exact hnd
      · exact htl
      · intro vid hvid
        rw [VillIds] at hvid
        rw [show (kill_villager g victim.id).players = g.players.map _ from rfl,
          villIds_map_pres] at hvid
        · exact hbound vid hvid
        · intro p
          apply map_vill_id_of_preserve
          intro v
          split <;> rfl
      · rw [VillIds]
        rw [show (kill_villager g victim.id).players = g.players.map _ from rfl,
          villIds_map_pres]
        · exact hvnd
        · intro p
          apply map_vill_id_of_preserve
          intro v
          split <;> rfl
      · intro p' hp' v' hv'
        rw [show (kill_villager g victim.id).players = g.players.map _ from rfl] at hp'
        obtain ⟨p, hp, rfl⟩ := List.mem_map.mp hp'
        obtain ⟨v, hv2, rfl⟩ := List.mem_map.mp hv'
        have hold := hdist p hp v hv2
        by_cases hcc : v.id = victim.id
        · have hveq : v = victim :=
            villager_id_inj hvnd (mem_allVillagers hp hv2) hvall hcc
          have hvs : v.state = VState.water := by rw [hveq]; exact hvw
          have hcond : (v.id == victim.id) = true := by simp [hcc]
          rw [if_pos hcond]
          constructor
          · intro hd
            have h2 := hold.mp hd
            rw [hvs] at h2
            cases h2
          · intro hh
            cases hh
        · simp only [beq_eq_false_iff_ne.mpr hcc, if_false]
          exact hold
  · rw [if_neg hroll]
    exact h

theorem writeVillager_board (g : Game) (pi vid : Nat) (x : Villager) :
    (writeVillager g pi vid x).board = g.board := rfl

/-- `move_action` when the move reaches safety and the villager holds a tile
reference: the villager is written back safe (its `tile` field untouched)
and its id is erased from that tile's occupant list. -/
theorem move_action_safe_some {g : Game} {pi vid : Nat} {m : Int}
    {st : PhaseLocals} {v : Villager} {tid : Nat}
    (hv : getVillager g pi vid = some v)
    (hd : v.distance_remaining - m ≤ 0) (ht : v.tile = some tid) :
    move_action g pi vid m st =
      ({ writeVillager g pi vid
           { v with distance_remaining := v.distance_remaining - m,
                    state := VState.safe } with
         board := updateTileOnBoard g.board tid fun t =>
           { t with villagers := t.villagers.erase vid } },
       { st with points := st.points - m }) := by
  unfold move_action
  rw [hv]
  dsimp only
  rw [if_pos hd, ht]
  rfl

/-- `move_action` when the move reaches safety and the villager holds no
tile reference (it was in water). -/
theorem move_action_safe_none {g : Game} {pi vid : Nat} {m : Int}
    {st : PhaseLocals} {v : Villager}
    (hv : getVillager g pi vid = some v)
    (hd : v.distance_remaining - m ≤ 0) (ht : v.tile = none) :
    move_action g pi vid m st =
      (writeVillager g pi vid
        { v with distance_remaining := v.distance_remaining - m,
                 state := VState.safe },
       { st with points := st.points - m }) := by
  unfold move_action
  rw [hv]
  dsimp only
  rw [if_pos hd, ht]

/-- `move_action` when the villager is still short of safety: the distance
shrinks by the amount and an in-water mover is marked. -/
theorem move_action_go {g : Game} {pi vid : Nat} {m : Int}
    {st : PhaseLocals} {v : Villager}
    (hv : getVillager g pi vid = some v)
    (hd : ¬ v.distance_remaining - m ≤ 0) :
    move_action g pi vid m st =
      (writeVillager g pi vid { v with distance_remaining := v.distance_remaining - m },
       if v.state = VState.water
       then { points := st.points - m, water_moved := vid :: st.water_moved }
       else { st with points := st.points - m }) := by
  unfold move_action
  rw [hv]
  dsimp only
  rw [if_neg hd]

/-- Writing back a villager that still satisfies the distance/safe
biconditional, through its own id, preserves the invariant. -/
theorem inv_write {g : Game} {pi vid : Nat} {x : Villager} (h : Inv g)
    (hxid : x.id = vid)
    (hx : x.distance_remaining ≤ 0 ↔ x.state = VState.safe) :
    Inv (writeVillager g pi vid x) := by
  obtain ⟨hnd, htl, hbound, hvnd, hdist⟩ := h
  have hids : ∀ p : Player,
      (({ p with villagers := p.villagers.map fun w =>
            if w.id == vid then x else w } : Player).villagers.map Villager.id)
        = p.villagers.map Villager.id := by
    intro p
    apply map_vill_id_of_preserve
    intro w
    by_cases hw : w.id = vid
    · simp [hw, hxid]
    · simp [hw]
  refine ⟨hnd, htl, ?_, ?_, ?_⟩
  · intro i hi
    rw [VillIds, show (writeVillager g pi vid x).players = updateAt g.players pi _ from rfl,
      villIds_updateAt_pres _ _ _ hids] at hi
    exact hbound i hi
  · rw [VillIds, show (writeVillager g pi vid x).players = updateAt g.players pi _ from rfl,
      villIds_updateAt_pres _ _ _ hids]
    exact hvnd
  · intro p' hp' v' hv'
    rw [show (writeVillager g pi vid x).players = updateAt g.players pi _ from rfl] at hp'
    rcases mem_updateAt hp' with hold | ⟨p, hp, rfl⟩
    · exact hdist p' hold v' hv'
    · obtain ⟨w, hw, rfl⟩ := List.mem_map.mp hv'
      by_cases hcc : w.id = vid
      · rw [if_pos (by simp [hcc])]
        exact hx
      · rw [if_neg (by simp [hcc])]
        exact hdist p hp w hw

/-- Erasing an occupant id from a tile's list preserves the invariant. -/
theorem inv_erase_board {g : Game} (tid vid : Nat) (h : Inv g) :
    Inv { g with board := updateTileOnBoard g.board tid fun t =>
      { t with villagers := t.villagers.erase vid } } := by
  obtain ⟨hnd, htl, hbound, hvnd, hdist⟩ := h
  have htiles : ({ g with board := updateTileOnBoard g.board tid fun t =>
      { t with villagers := t.villagers.erase vid } } : Game).get_all_tiles
      = g.get_all_tiles.map fun t =>
          if t.id == tid then { t with villagers := t.villagers.erase vid } else t := by
    show (updateTileOnBoard g.board tid _).flatten.filterMap id = _
    exact get_all_tiles_updateTile g.board tid _
  refine ⟨?_, ?_, hbound, hvnd, hdist⟩
  · rw [htiles, map_tile_id_of_preserve]
    · exact hnd
    · intro t
      split <;> rfl
  · intro t' ht'
    rw [htiles] at ht'
    obtain ⟨t, ht, rfl⟩ := List.mem_map.mp ht'
    have hold := htl t ht
    by_cases hcc : t.id = tid
    · rw [if_pos (by simp [hcc])]
      refine ⟨?_, hold.2.1, hold.2.2⟩
      calc (t.villagers.erase vid).length ≤ t.villagers.length :=
            (t.villagers.erase_sublist vid).length_le
        _ ≤ t.capacity := hold.1
    · rw [if_neg (by simp [hcc])]
      exact hold

theorem inv_move (g : Game) (pi vid : Nat) (m : Int) (st : PhaseLocals)
    (v : Villager) (hleg : legal_move g pi vid m st v) (h : Inv g) :
    Inv (move_action g pi vid m st).1 := by
  obtain ⟨hv, hmov, _, _, _, _⟩ := hleg
  obtain ⟨p, hp, hvp, hvid⟩ := getVillager_spec hv
  by_cases hd : v.distance_remaining - m ≤ 0
  · cases ht : v.tile with
    | some tid =>
      rw [move_action_safe_some hv hd ht]
      have h1 : Inv (writeVillager g pi vid
          { v with distance_remaining := v.distance_remaining - m,
                   state := VState.safe }) :=
        inv_write h hvid (by simp [hd])
      have := @inv_erase_board (writeVillager g pi vid
        { v with distance_remaining := v.distance_remaining - m,
                 state := VState.safe }) tid vid h1
      exact this
    | none =>
      rw [move_action_safe_none hv hd ht]
      exact inv_write h hvid (by simp [hd])
  · rw [move_action_go hv hd]
    have hnotsafe : ¬ ({ v with distance_remaining := v.distance_remaining - m }
        : Villager).state = VState.safe := by
      rcases hmov with hs | hs <;> simp [hs]
    exact inv_write h hvid (by simp [hd, hnotsafe])

theorem valid_tiles_spec {g : Game} {t : Tile} (h : t ∈ valid_tiles g) :
    t ∈ g.get_all_tiles ∧ t.villagers.length < t.capacity := by
  have := List.mem_filter.mp h
  exact ⟨this.1, by simpa using this.2⟩

theorem inv_place (g : Game) (pi : Nat) (t : Tile) (treasure : Nat)
    (hpi : pi < g.players.length) (ht : t ∈ valid_tiles g) (h : Inv g) :
    Inv (place_villager g pi t treasure) := by
  obtain ⟨hnd, htl, hbound, hvnd, hdist⟩ := h
  obtain ⟨htg, htcap⟩ := valid_tiles_spec ht
  have htiles : (place_villager g pi t treasure).get_all_tiles
      = g.get_all_tiles.map fun x =>
          if x.id == t.id
          then { x with villagers := x.villagers ++ [g.villager_counter] }
          else x := by
    show (updateTileOnBoard g.board t.id _).flatten.filterMap id = _
    exact get_all_tiles_updateTile g.board t.id _
  have hplayers : (place_villager g pi t treasure).players
      = updateAt g.players pi fun q =>
          { q with villagers := q.villagers ++
              [{ id := g.villager_counter,
                 owner := ((g.players[pi]?).map Player.name).getD "",
                 treasure := treasure, state := VState.land,
                 distance_remaining := (t.distance : Int),
                 tile := some t.id }] } := rfl
  have hcounter : (place_villager g pi t treasure).villager_counter
      = g.villager_counter + 1 := rfl
  have hnotin : g.villager_counter ∉ VillIds g := fun hmem =>
    absurd (hbound _ hmem) (lt_irrefl _)
  obtain ⟨l₁, p, l₂, hsplit, hlen, hupd⟩ :=
    updateAt_decomp g.players pi
      (fun q =>
        { q with villagers := q.villagers ++
            [{ id := g.villager_counter,
               owner := ((g.players[pi]?).map Player.name).getD "",
               treasure := treasure, state := VState.land,
               distance_remaining := (t.distance : Int),
               tile := some t.id }] }) hpi
  have holdEq : VillIds g
      = (l₁.flatMap (fun q => q.villagers.map Villager.id)
          ++ p.villagers.map Villager.id)
        ++ l₂.flatMap (fun q => q.villagers.map Villager.id) := by
    rw [VillIds, hsplit]
    simp [List.append_assoc]
  have hnewEq : VillIds (place_villager g pi t treasure)
      = (l₁.flatMap (fun q => q.villagers.map Villager.id)
          ++ p.villagers.map Villager.id)
        ++ g.villager_counter
          :: l₂.flatMap (fun q => q.villagers.map Villager.id) := by
    rw [VillIds, hplayers, hupd]
    simp [List.append_assoc]
  refine ⟨?_, ?_, ?_, ?_, ?_⟩
  · rw [htiles, map_tile_id_of_preserve]
    · exact hnd
    · intro x
      split <;> rfl
  · intro x' hx'
    rw [htiles] at hx'
    obtain ⟨x, hx, rfl⟩ := List.mem_map.mp hx'
    have hold := htl x hx
    by_cases hcc : x.id = t.id
    · have hxt : x = t :=
        List.inj_on_of_nodup_map hnd hx htg hcc
      rw [if_pos (by simp [hcc])]
      refine ⟨?_, hold.2.1, hold.2.2⟩
      have : x.villagers.length < x.capacity := by
        rw [hxt]
        exact htcap
      simpa using this
    · rw [if_neg (by simp [hcc])]
      exact hold
  · intro i hi
    rw [hnewEq] at hi
    rw [hcounter]
    rcases List.mem_append.mp hi with hiA | hiB
    · have : i ∈ VillIds g := by
        rw [holdEq]
        exact List.mem_append.mpr (Or.inl hiA)
      exact Nat.lt_succ_of_lt (hbound i this)
    · rcases List.mem_cons.mp hiB with rfl | hiB'
      · exact Nat.lt_succ_self _
      · have : i ∈ VillIds g := by
          rw [holdEq]
          exact List.mem_append.mpr (Or.inr hiB')
        exact Nat.lt_succ_of_lt (hbound i this)
  · rw [hnewEq]
    rw [List.nodup_middle]
    constructor
    · rw [← holdEq]
      intro a' ha' heq
      subst heq
      exact hnotin ha'
    · rw [← holdEq]
      exact hvnd
  · intro p' hp' v' hv'
    rw [hplayers] at hp'
    rcases mem_updateAt hp' with hold | ⟨q, hq, rfl⟩
    · exact hdist p' hold v' hv'
    · rcases List.mem_append.mp hv' with hv'' | hv''
      · exact hdist q hq v' hv''
      · rcases List.mem_cons.mp hv'' with rfl | hfalse
        · constructor
          · intro hdd
            exfalso
            have hpos : (0 : Int) < (t.distance : Int) := by
              exact_mod_cast (htl t htg).2.2
            simp only at hdd
            omega
          · intro hs
            cases hs
        · cases hfalse

theorem inv_step {g g' : Game} (hstep : GStep g g') (h : Inv g) : Inv g' := by
  cases hstep with
  | place pi t treasure hpi ht _ _ => exact inv_place g pi t treasure hpi ht h
  | move pi vid m st v hleg => exact inv_move g pi vid m st v hleg h
  | sink i => exact inv_sink g i h
  | creature roll i => exact inv_creature g roll i h

theorem reachable_inv {g : Game} (h : Reachable g) : Inv g := by
  obtain ⟨ts, hr⟩ := h
  induction hr with
  | refl => exact inv_init ts
  | tail _ hstep ih => exact inv_step hstep ih

/-- C7: at every reachable state every tile holds at most its capacity of 3
occupants; placement only ever draws a tile strictly below capacity; and
when no occupiable tile exists placement aborts as a non-fatal no-op. -/
theorem c7_capacity_invariant :
    (∀ g : Game, Reachable g → ∀ t ∈ g.get_all_tiles,
        t.villagers.length ≤ t.capacity ∧ t.capacity = 3) ∧
    (∀ (g : Game) (ch : Nat) (t : Tile), pyChoice (valid_tiles g) ch = some t →
        t.villagers.length < t.capacity) ∧
    (∀ (g : Game) (pi treasure choice : Nat), valid_tiles g = [] →
        setup_place_one g pi treasure choice = (g, true)) := by
  refine ⟨?_, ?_, ?_⟩
  · intro g hg t ht
    have := (reachable_inv hg).2.1 t ht
    exact ⟨this.1, this.2.1⟩
  · intro g ch t hch
    exact (valid_tiles_spec (pyChoice_mem _ _ _ hch)).2
  · intro g pi treasure choice hempty
    unfold setup_place_one
    rw [hempty, pyChoice_nil]

theorem c7_capacity_invariant_witness :
    Reachable (Game.init ts0) ∧
    (∀ t ∈ (Game.init ts0).get_all_tiles,
        t.villagers.length ≤ t.capacity ∧ t.capacity = 3) :=
  ⟨⟨ts0, Relation.ReflTransGen.refl⟩,
    c7_capacity_invariant.1 (Game.init ts0) ⟨ts0, Relation.ReflTransGen.refl⟩⟩

theorem find?_map_write (vs : List Villager) (vid : Nat) (x v : Villager)
    (hx : x.id = vid)
    (h : vs.find? (fun w => w.id == vid) = some v) :
    (vs.map fun w => if w.id == vid then x else w).find? (fun w => w.id == vid)
      = some x := by
  induction vs with
  | nil => cases h
  | cons w ws ih =>
    by_cases hw : w.id = vid
    · have hcond : (w.id == vid) = true := by simp [hw]
      rw [List.map_cons, if_pos hcond]
      rw [List.find?_cons_of_pos _ (by simp [hx])]
    · have hcond : ¬ (w.id == vid) = true := by simp [hw]
      have h1 : List.find? (fun u => u.id == vid) (w :: ws)
          = List.find? (fun u => u.id == vid) ws :=
        List.find?_cons_of_neg _ hcond
      rw [h1] at h
      have h2 : List.find? (fun u => u.id == vid)
          ((w :: ws).map fun u => if u.id == vid then x else u)
          = List.find? (fun u => u.id == vid)
              (ws.map fun u => if u.id == vid then x else u) := by
        rw [List.map_cons, if_neg hcond]
        exact List.find?_cons_of_neg _ hcond
      rw [h2]
      exact ih h

theorem getVillager_write_self {g : Game} {pi vid : Nat} {x v : Villager}
    (h : getVillager g pi vid = some v) (hx : x.id = vid) :
    getVillager (writeVillager g pi vid x) pi vid = some x := by
  unfold getVillager at h ⊢
  cases hp : g.players[pi]? with
  | none => rw [hp] at h; cases h
  | some p =>
    rw [hp] at h
    have hp' : (writeVillager g pi vid x).players[pi]?
        = some { p with villagers := p.villagers.map fun w =>
            if w.id == vid then x else w } := by
      show (updateAt g.players pi _)[pi]? = _
      rw [getElem?_updateAt, if_pos rfl, hp]
      rfl
    rw [hp']
    exact find?_map_write p.villagers vid x v hx h

/-- C1 (amended): at every reachable state, remaining-distance ≤ 0 holds
exactly for safe villagers; and a movement action that brings the distance
to ≤ 0 makes the villager safe and erases its id from its tile's occupant
list — but leaves the villager's own tile field unchanged (the code never
clears it). -/
theorem c1_safe_transition_amended :
    (∀ g : Game, Reachable g → ∀ p ∈ g.players, ∀ v ∈ p.villagers,
        (v.distance_remaining ≤ 0 ↔ v.state = VState.safe)) ∧
    (∀ (g : Game) (pi vid : Nat) (m : Int) (st : PhaseLocals) (v : Villager),
      legal_move g pi vid m st v →
      v.distance_remaining - m ≤ 0 →
      getVillager (move_action g pi vid m st).1 pi vid
          = some { v with distance_remaining := v.distance_remaining - m,
                          state := VState.safe } ∧
      ({ v with distance_remaining := v.distance_remaining - m,
                state := VState.safe } : Villager).tile = v.tile ∧
      (∀ tid, v.tile = some tid →
        ∀ t' ∈ (move_action g pi vid m st).1.get_all_tiles, t'.id = tid →
          ∃ t₀ ∈ g.get_all_tiles, t₀.id = tid ∧
            t'.villagers = t₀.villagers.erase vid)) := by
  constructor
  · intro g hg p hp v hv
    exact (reachable_inv hg).2.2.2.2 p hp v hv
  · intro g pi vid m st v hleg hd
    obtain ⟨hv, hmov, _, _, _, _⟩ := hleg
    obtain ⟨p, hp, hvp, hvid⟩ := getVillager_spec hv
    have hsplit : v.tile = none ∨ ∃ tid, v.tile = some tid := by
      cases v.tile with
      | none => exact Or.inl rfl
      | some tid => exact Or.inr ⟨tid, rfl⟩
    rcases hsplit with ht | ⟨tid, ht⟩
    · rw [move_action_safe_none hv hd ht]
      refine ⟨getVillager_write_self hv hvid, rfl, ?_⟩
      intro tid htid
      rw [ht] at htid
      cases htid
    · rw [move_action_safe_some hv hd ht]
      refine ⟨getVillager_write_self hv hvid, rfl, ?_⟩
      intro tid' htid' t' ht' htid2
      rw [ht] at htid'
      injection htid' with htid'
      subst htid'
      have htiles : ({ writeVillager g pi vid
          { v with distance_remaining := v.distance_remaining - m,
                   state := VState.safe } with
          board := updateTileOnBoard g.board tid fun t =>
            { t with villagers := t.villagers.erase vid } } : Game).get_all_tiles
          = g.get_all_tiles.map fun x =>
              if x.id == tid then { x with villagers := x.villagers.erase vid }
              else x := by
        show (updateTileOnBoard g.board tid _).flatten.filterMap id = _
        exact get_all_tiles_updateTile g.board tid _
      rw [htiles] at ht'
      obtain ⟨t₀, ht₀, rfl⟩ := List.mem_map.mp ht'
      by_cases hcc : t₀.id = tid
      · rw [if_pos (by simp [hcc])] at htid2 ⊢
        exact ⟨t₀, ht₀, hcc, rfl⟩
      · rw [if_neg (by simp [hcc])] at htid2
        exact absurd htid2 hcc

theorem c1_safe_transition_amended_witness :
    Reachable (Game.init ts0) ∧
    legal_move c1Mid 0 1 1 phaseStart c1V ∧
    c1V.distance_remaining - 1 ≤ 0 ∧
    getVillager (move_action c1Mid 0 1 1 phaseStart).1 0 1
      = some { c1V with distance_remaining := c1V.distance_remaining - 1,
                        state := VState.safe } :=
  ⟨⟨ts0, Relation.ReflTransGen.refl⟩, by decide, by decide,
    (c1_safe_transition_amended.2 c1Mid 0 1 1 phaseStart c1V (by decide)
      (by decide)).1⟩

/-- C1 as stated fails: this reachable state holds a safe villager whose
remaining distance is ≤ 0 but whose tile reference was never cleared. -/
theorem c1_safe_transition_counterexample :
    Reachable c1End ∧
    ∃ v, getVillager c1End 0 1 = some v ∧ v.distance_remaining ≤ 0 ∧
      v.state = VState.safe ∧ ¬ v.tile = none := by
  constructor
  · refine ⟨ts0, ?_⟩
    refine Relation.ReflTransGen.head
      (GStep.place (Game.init ts0) 0 c1Tile 1 (by decide) (by decide)
        (by decide) (by decide)) ?_
    exact Relation.ReflTransGen.head
      (GStep.move c1Mid 0 1 1 phaseStart c1V (by decide))
      Relation.ReflTransGen.refl
  · exact ⟨{ id := 1, owner := "Human", treasure := 1, state := VState.safe,
             distance_remaining := 0, tile := some 8 },
      by decide, by decide, by decide, by decide⟩

theorem slotAt_none_of_board_map {g g' : Game} {k : Option Tile → Option Tile}
    (hb : g'.board = g.board.map fun row => row.map k) (hk : k none = none)
    {r c : Nat} (h : slotAt g r c = none) : slotAt g' r c = none := by
  unfold slotAt at h ⊢
  rw [hb, List.getElem?_map]
  cases hrow : g.board[r]? with
  | none => rfl
  | some row =>
    rw [hrow] at h
    simp only [Option.map_some', Option.some_bind] at h ⊢
    rw [List.getElem?_map]
    cases hcol : row[c]? with
    | none => rfl
    | some slot =>
      rw [hcol] at h
      have h2 : slot = none := h
      rw [h2]
      simp [hk]

theorem slotAt_none_of_board_eq {g g' : Game} (hb : g'.board = g.board)
    {r c : Nat} (h : slotAt g r c = none) : slotAt g' r c = none := by
  unfold slotAt at h ⊢
  rw [hb]
  exact h

theorem creature_phase_board (g : Game) (roll i : Nat) :
    (creature_phase g roll i).board = g.board := by
  unfold creature_phase
  by_cases hroll : roll = 1 ∨ roll = 2
  · rw [if_pos hroll]
    cases pyChoice (all_water_villagers g) i <;> rfl
  · rw [if_neg hroll]

/-- A board slot that is sunk stays sunk across any single engine step. -/
theorem slot_none_step {g g' : Game} (hstep : GStep g g') {r c : Nat}
    (h : slotAt g r c = none) : slotAt g' r c = none := by
  cases hstep with
  | place pi t treasure _ _ _ _ =>
    exact slotAt_none_of_board_map rfl rfl h
  | move pi vid m st v hleg =>
    obtain ⟨hv, _, _, _, _, _⟩ := hleg
    by_cases hd : v.distance_remaining - m ≤ 0
    · have hsplit : v.tile = none ∨ ∃ tid, v.tile = some tid := by
        cases v.tile with
        | none => exact Or.inl rfl
        | some tid => exact Or.inr ⟨tid, rfl⟩
      rcases hsplit with ht | ⟨tid, ht⟩
      · rw [move_action_safe_none hv hd ht]
        exact slotAt_none_of_board_eq rfl h
      · rw [move_action_safe_some hv hd ht]
        exact slotAt_none_of_board_map rfl rfl h
    · rw [move_action_go hv hd]
      exact slotAt_none_of_board_eq rfl h
  | sink i =>
    unfold sink_tile
    cases hc : sink_tile_choice g i with
    | none => exact h
    | some t => exact slotAt_none_of_board_map rfl rfl h
  | creature roll i =>
    exact slotAt_none_of_board_eq (creature_phase_board g roll i) h

theorem sink_tile_inv {g g' : Game} {i : Nat} {t : Tile}
    (h : sink_tile g i = (g', some t)) :
    g' = sink_apply g t ∧ sink_tile_choice g i = some t := by
  unfold sink_tile at h
  cases hc : sink_tile_choice g i with
  | none =>
    rw [hc] at h
    cases h
  | some t₀ =>
    rw [hc] at h
    obtain ⟨h1, h2⟩ := Prod.mk.injEq .. ▸ h
    injection h2 with h2
    subst h2
    exact ⟨h1.symm, rfl⟩

/-- C3 (amended): sinking a tile turns exactly its on-land occupants to
in-water with cleared tile references (never straight to safe or dead),
leaves every other villager untouched, removes the tile from the board, and
a sunk slot never holds a tile again; the `Tile` object's own occupant list
is, however, not cleared by the code. -/
theorem c3_sink_mutation_amended :
    (∀ (g : Game) (i : Nat) (g' : Game) (t : Tile),
      sink_tile g i = (g', some t) →
      (∀ (pj : Nat) (p : Player), g.players[pj]? = some p →
        ∃ p', g'.players[pj]? = some p' ∧
          p'.villagers.length = p.villagers.length ∧
          ∀ (k : Nat) (v : Villager), p.villagers[k]? = some v →
            p'.villagers[k]? = some
              (if v.id ∈ t.villagers ∧ v.state = VState.land
               then { v with state := VState.water, tile := none }
               else v)) ∧
      g'.get_all_tiles = g.get_all_tiles.filter fun x => !(x.id == t.id)) ∧
    (∀ g g' : Game, Relation.ReflTransGen GStep g g' →
      ∀ r c : Nat, slotAt g r c = none → slotAt g' r c = none) := by
  constructor
  · intro g i g' t h
    obtain ⟨hg', hchoice⟩ := sink_tile_inv h
    subst hg'
    constructor
    · intro pj p hp
      have hp' : (sink_apply g t).players[pj]?
          = some { p with villagers := p.villagers.map fun v =>
              if t.villagers.contains v.id && decide (v.state = VState.land)
              then { v with state := VState.water, tile := none }
              else v } := by
        show (g.players.map _)[pj]? = _
        rw [List.getElem?_map, hp]
        rfl
      refine ⟨_, hp', ?_, ?_⟩
      · simp
      · intro k v hk
        show (p.villagers.map _)[k]? = _
        rw [List.getElem?_map, hk]
        simp only [Option.map_some']
        by_cases hcond : v.id ∈ t.villagers ∧ v.state = VState.land
        · rw [if_pos hcond]
          have : (t.villagers.contains v.id && decide (v.state = VState.land))
              = true := by
            simp [hcond.1, hcond.2]
          rw [if_pos this]
        · rw [if_neg hcond]
          have : ¬ (t.villagers.contains v.id && decide (v.state = VState.land))
              = true := by
            intro hcc
            apply hcond
            have := (Bool.and_eq_true _ _).mp hcc
            exact ⟨by simpa using this.1, by simpa using this.2⟩
          rw [if_neg this]
    · exact get_all_tiles_sink_apply g t
  · intro g g' hchain r c hn
    induction hchain with
    | refl => exact hn
    | tail _ hstep ih => exact slot_none_step hstep ih

theorem c3_sink_mutation_amended_witness :
    sink_tile c3Game 0 = ((sink_tile c3Game 0).1, some c3Tile) ∧
    (sink_tile c3Game 0).1.get_all_tiles
      = c3Game.get_all_tiles.filter fun x => !(x.id == c3Tile.id) :=
  ⟨by decide,
    (c3_sink_mutation_amended.1 c3Game 0 (sink_tile c3Game 0).1 c3Tile
      (by decide)).2⟩

/-- C3 as stated fails: after the sink, the sunk tile's occupant set still
holds the id of its former occupant (the code never clears the list), even
though the occupant itself fell into the water and the slot was emptied. -/
theorem c3_sink_mutation_counterexample :
    (sink_tile c3Game 0).2 = some c3Tile ∧
    ¬ c3Tile.villagers = [] ∧
    getVillager (sink_tile c3Game 0).1 0 1
      = some { id := 1, owner := "Human", treasure := 1, state := VState.water,
               distance_remaining := 3, tile := none } ∧
    slotAt (sink_tile c3Game 0).1 0 0 = none := by
  refine ⟨?_, ?_, ?_, ?_⟩ <;> decide

theorem players_updateAt_cases {ps : List Player} {pi pj : Nat}
    {f : Player → Player} {p : Player} (hp : ps[pj]? = some p) :
    (updateAt ps pi f)[pj]? = some (if pj = pi then f p else p) := by
  rw [getElem?_updateAt]
  by_cases h : pj = pi
  · rw [if_pos h, if_pos h, hp]
    rfl
  · rw [if_neg h, if_neg h, hp]

/-- No engine step revives a dead villager: some villager with the same id
is still dead afterwards. -/
theorem dead_persists {g g' : Game} (hstep : GStep g g')
    (hnd : (VillIds g).Nodup) {pj : Nat} {p : Player} {v : Villager}
    (hp : g.players[pj]? = some p) (hv : v ∈ p.villagers)
    (hd : v.state = VState.dead) :
    ∃ p', g'.players[pj]? = some p' ∧
      ∃ v' ∈ p'.villagers, v'.id = v.id ∧ v'.state = VState.dead := by
  cases hstep with
  | place pi t treasure hpi ht _ _ =>
    refine ⟨_, players_updateAt_cases hp, ?_⟩
    by_cases hpp : pj = pi
    · rw [if_pos hpp]
      exact ⟨v, List.mem_append.mpr (Or.inl hv), rfl, hd⟩
    · rw [if_neg hpp]
      exact ⟨v, hv, rfl, hd⟩
  | move pi vid m st vm hleg =>
    obtain ⟨hvm, hmov, _, _, _, _⟩ := hleg
    obtain ⟨q, hq, hvq, hvmid⟩ := getVillager_spec hvm
    have hplayers : ∀ x : Villager,
        (move_action g pi vid m st).1.players
          = (writeVillager g pi vid x).players → True := fun _ _ => trivial
    have hvne : v.id ≠ vid := by
      intro heq
      have hqall : vm ∈ allVillagers g := by
        have hqmem : q ∈ g.players := List.getElem?_mem hq
        exact mem_allVillagers hqmem hvq
      have hvall : v ∈ allVillagers g :=
        mem_allVillagers (List.getElem?_mem hp) hv
      have : v = vm := villager_id_inj hnd hvall hqall (by rw [heq, hvmid])
      rcases hmov with hs | hs <;> rw [this, hs] at hd <;> cases hd
    have hwrite : ∀ x : Villager,
        ∃ p', (writeVillager g pi vid x).players[pj]? = some p' ∧
          ∃ v' ∈ p'.villagers, v'.id = v.id ∧ v'.state = VState.dead := by
      intro x
      refine ⟨_, players_updateAt_cases hp, ?_⟩
      by_cases hpp : pj = pi
      · rw [if_pos hpp]
        have hkeep : (fun w => if w.id == vid then x else w) v = v := by
          dsimp only
          rw [if_neg (by simp [hvne])]
        exact ⟨v, List.mem_map.mpr ⟨v, hv, hkeep⟩, rfl, hd⟩
      · rw [if_neg hpp]
        exact ⟨v, hv, rfl, hd⟩
    by_cases hdm : vm.distance_remaining - m ≤ 0
    · have hsplit : vm.tile = none ∨ ∃ tid, vm.tile = some tid := by
        cases vm.tile with
        | none => exact Or.inl rfl
        | some tid => exact Or.inr ⟨tid, rfl⟩
      rcases hsplit with htl | ⟨tid, htl⟩
      · rw [move_action_safe_none hvm hdm htl]
        exact hwrite _
      · rw [move_action_safe_some hvm hdm htl]
        exact hwrite _
    · rw [move_action_go hvm hdm]
      exact hwrite _
  | sink i =>
    unfold sink_tile
    cases hc : sink_tile_choice g i with
    | none => exact ⟨p, hp, v, hv, rfl, hd⟩
    | some t =>
      have hp' : (sink_apply g t).players[pj]?
          = some { p with villagers := p.villagers.map fun w =>
              if t.villagers.contains w.id && decide (w.state = VState.land)
              then { w with state := VState.water, tile := none }
              else w } := by
        show (g.players.map _)[pj]? = _
        rw [List.getElem?_map, hp]
        rfl
      refine ⟨_, hp', ?_⟩
      have hkeep : (fun w =>
          if t.villagers.contains w.id && decide (w.state = VState.land)
          then { w with state := VState.water, tile := none }
          else w) v = v := by
        dsimp only
        rw [if_neg]
        simp [hd]
      exact ⟨v, List.mem_map.mpr ⟨v, hv, hkeep⟩, rfl, hd⟩
  | creature roll i =>
    unfold creature_phase
    by_cases hroll : roll = 1 ∨ roll = 2
    · rw [if_pos hroll]
      cases hch : pyChoice (all_water_villagers g) i with
      | none => exact ⟨p, hp, v, hv, rfl, hd⟩
      | some victim =>
        have hp' : (kill_villager g victim.id).players[pj]?
            = some { p with villagers := p.villagers.map fun w =>
                if w.id == victim.id then { w with state := VState.dead }
                else w } := by
          show (g.players.map _)[pj]? = _
          rw [List.getElem?_map, hp]
          rfl
        refine ⟨_, hp', ?_⟩
        refine ⟨(fun w => if w.id == victim.id
            then { w with state := VState.dead } else w) v,
          List.mem_map.mpr ⟨v, hv, rfl⟩, ?_, ?_⟩
        · dsimp only
          split <;> rfl
        · dsimp only
          split
          · rfl
          · exact hd
    · rw [if_neg hroll]
      exact ⟨p, hp, v, hv, rfl, hd⟩

/-- C5: the creature phase kills exactly when the roll is 1 or 2 and some
in-water villager exists: the victim is drawn from the in-water villagers
of all players and only its state changes (to dead, permanently — no later
step revives it — and it can never be counted among safe villagers); on any
other roll, or with nobody in the water, the phase changes nothing and is
not an error. -/
theorem c5_creature_phase :
    (∀ (g : Game) (roll i : Nat), roll ≠ 1 → roll ≠ 2 →
        creature_phase g roll i = g) ∧
    (∀ (g : Game) (roll i : Nat), all_water_villagers g = [] →
        creature_phase g roll i = g) ∧
    (∀ (g : Game) (roll i : Nat), (roll = 1 ∨ roll = 2) →
      all_water_villagers g ≠ [] →
      ∃ victim, pyChoice (all_water_villagers g) i = some victim ∧
        victim ∈ all_water_villagers g ∧ victim.state = VState.water ∧
        creature_phase g roll i = kill_villager g victim.id ∧
        (∀ (pj : Nat) (p : Player), g.players[pj]? = some p →
          ∃ p', (creature_phase g roll i).players[pj]? = some p' ∧
            p'.villagers.length = p.villagers.length ∧
            ∀ (k : Nat) (v : Villager), p.villagers[k]? = some v →
              p'.villagers[k]? = some
                (if v.id = victim.id then { v with state := VState.dead }
                 else v))) ∧
    (∀ g g' : Game, GStep g g' → (VillIds g).Nodup →
      ∀ (pj : Nat) (p : Player) (v : Villager), g.players[pj]? = some p →
        v ∈ p.villagers → v.state = VState.dead →
        ∃ p', g'.players[pj]? = some p' ∧
          ∃ v' ∈ p'.villagers, v'.id = v.id ∧ v'.state = VState.dead) ∧
    (∀ (p : Player) (v : Villager), v ∈ p.villagers → v.state = VState.dead →
      v ∉ safeVillagers p) := by
  refine ⟨?_, ?_, ?_, ?_, ?_⟩
  · intro g roll i h1 h2
    unfold creature_phase
    rw [if_neg]
    rintro (h | h)
    · exact h1 h
    · exact h2 h
  · intro g roll i hempty
    unfold creature_phase
    rw [hempty]
    by_cases hroll : roll = 1 ∨ roll = 2
    · rw [if_pos hroll]
      rfl
    · rw [if_neg hroll]
  · intro g roll i hroll hne
    obtain ⟨victim, hch, hmem⟩ := pyChoice_isSome _ i hne
    have hvw : victim.state = VState.water := by
      unfold all_water_villagers at hmem
      obtain ⟨q, _, hmm⟩ := List.mem_flatMap.mp hmem
      have := (List.mem_filter.mp hmm).2
      simpa using this
    have hphase : creature_phase g roll i = kill_villager g victim.id := by
      unfold creature_phase
      rw [if_pos hroll, hch]
    refine ⟨victim, hch, hmem, hvw, hphase, ?_⟩
    intro pj p hp
    rw [hphase]
    have hp' : (kill_villager g victim.id).players[pj]?
        = some { p with villagers := p.villagers.map fun w =>
            if w.id == victim.id then { w with state := VState.dead }
            else w } := by
      show (g.players.map _)[pj]? = _
      rw [List.getElem?_map, hp]
      rfl
    refine ⟨_, hp', by simp, ?_⟩
    intro k v hk
    show (p.villagers.map _)[k]? = _
    rw [List.getElem?_map, hk]
    simp only [Option.map_some']
    by_cases hcc : v.id = victim.id
    · rw [if_pos hcc, if_pos (by simp [hcc])]
    · rw [if_neg hcc, if_neg (by simp [hcc])]
  · intro g g' hstep hnd pj p v hp hv hd
    exact dead_persists hstep hnd hp hv hd
  · intro p v hv hd hmem
    have := (List.mem_filter.mp hmem).2
    rw [hd] at this
    simp at this

theorem c5_creature_phase_witness :
    (creature_phase c5Game 6 0 = c5Game) ∧
    (all_water_villagers c5Game ≠ [] ∧
      ∃ victim, pyChoice (all_water_villagers c5Game) 0 = some victim ∧
        victim ∈ all_water_villagers c5Game ∧
        victim.state = VState.water ∧
        creature_phase c5Game 1 0 = kill_villager c5Game victim.id ∧
        (∀ (pj : Nat) (p : Player), c5Game.players[pj]? = some p →
          ∃ p', (creature_phase c5Game 1 0).players[pj]? = some p' ∧
            p'.villagers.length = p.villagers.length ∧
            ∀ (k : Nat) (v : Villager), p.villagers[k]? = some v →
              p'.villagers[k]? = some
                (if v.id = victim.id then { v with state := VState.dead }
                 else v))) ∧
    (∃ p', (creature_phase c5Game 3 0).players[0]? = some p' ∧
      ∃ v' ∈ p'.villagers, v'.id = 2 ∧ v'.state = VState.dead) :=
  ⟨c5_creature_phase.1 c5Game 6 0 (by decide) (by decide),
   ⟨by decide, c5_creature_phase.2.2.1 c5Game 1 0 (Or.inl rfl) (by decide)⟩,
   c5_creature_phase.2.2.2.1 c5Game (creature_phase c5Game 3 0)
     (GStep.creature c5Game 3 0) (by decide) 0 _
     { id := 2, owner := "Human", treasure := 5, state := VState.dead,
       distance_remaining := 1, tile := none }
     rfl (by decide) rfl⟩

theorem pyMaxByAux_spec {α : Type} (key : α → Nat) (l : List α) (a : α) :
    key a ≤ key (pyMaxByAux key a l) ∧
    (∀ y ∈ l, key y ≤ key (pyMaxByAux key a l)) ∧
    (pyMaxByAux key a l = a ∨
      ∃ l₁ l₂, l = l₁ ++ pyMaxByAux key a l :: l₂ ∧
        key a < key (pyMaxByAux key a l) ∧
        ∀ y ∈ l₁, key y < key (pyMaxByAux key a l)) := by
  induction l generalizing a with
  | nil => exact ⟨le_refl _, by simp, Or.inl rfl⟩
  | cons x xs ih =>
    by_cases hax : key a < key x
    · have hred : pyMaxByAux key a (x :: xs) = pyMaxByAux key x xs := by
        show pyMaxByAux key (if key a < key x then x else a) xs = _
        rw [if_pos hax]
      obtain ⟨ih1, ih2, ih3⟩ := ih x
      rw [hred]
      refine ⟨le_of_lt (lt_of_lt_of_le hax ih1), ?_, ?_⟩
      · intro y hy
        rcases List.mem_cons.mp hy with rfl | hy'
        · exact ih1
        · exact ih2 y hy'
      · rcases ih3 with heq | ⟨l₁, l₂, hsplit, hlt, hall⟩
        · refine Or.inr ⟨[], xs, ?_, ?_, by simp⟩
          · simp [heq]
          · rw [heq]
            exact hax
        · refine Or.inr ⟨x :: l₁, l₂,
            by rw [List.cons_append]; exact congrArg (List.cons x) hsplit,
            lt_trans hax hlt, ?_⟩
          intro y hy
          rcases List.mem_cons.mp hy with rfl | hy'
          · exact hlt
          · exact hall y hy'
    · have hred : pyMaxByAux key a (x :: xs) = pyMaxByAux key a xs := by
        show pyMaxByAux key (if key a < key x then x else a) xs = _
        rw [if_neg hax]
      obtain ⟨ih1, ih2, ih3⟩ := ih a
      rw [hred]
      refine ⟨ih1, ?_, ?_⟩
      · intro y hy
        rcases List.mem_cons.mp hy with rfl | hy'
        · exact le_trans (le_of_not_lt hax) ih1
        · exact ih2 y hy'
      · rcases ih3 with heq | ⟨l₁, l₂, hsplit, hlt, hall⟩
        · exact Or.inl heq
        · refine Or.inr ⟨x :: l₁, l₂,
            by rw [List.cons_append]; exact congrArg (List.cons x) hsplit,
            hlt, ?_⟩
          intro y hy
          rcases List.mem_cons.mp hy with rfl | hy'
          · exact lt_of_le_of_lt (le_of_not_lt hax) hlt
          · exact hall y hy'

/-- Python `max(key=…)` returns a maximal element, and the first one among
equals: every strictly earlier element has a strictly smaller key. -/
theorem pyMaxBy_spec {α : Type} (key : α → Nat) (l : List α) (w : α)
    (h : pyMaxBy l key = some w) :
    w ∈ l ∧ (∀ y ∈ l, key y ≤ key w) ∧
    ∃ l₁ l₂, l = l₁ ++ w :: l₂ ∧ ∀ y ∈ l₁, key y < key w := by
  cases l with
  | nil => cases h
  | cons x xs =>
    have hw : w = pyMaxByAux key x xs := by
      have : some (pyMaxByAux key x xs) = some w := h
      exact (Option.some_inj.mp this).symm
    obtain ⟨h1, h2, h3⟩ := pyMaxByAux_spec key xs x
    subst hw
    refine ⟨?_, ?_, ?_⟩
    · rcases h3 with heq | ⟨l₁, l₂, hsplit, _, _⟩
      · rw [heq]
        exact List.mem_cons_self _ _
      · have hmm : pyMaxByAux key x xs ∈ l₁ ++ pyMaxByAux key x xs :: l₂ :=
          List.mem_append.mpr (Or.inr (List.mem_cons_self _ _))
        rw [← hsplit] at hmm
        exact List.mem_cons_of_mem _ hmm
    · intro y hy
      rcases List.mem_cons.mp hy with rfl | hy'
      · exact h1
      · exact h2 y hy'
    · rcases h3 with heq | ⟨l₁, l₂, hsplit, hlt, hall⟩
      · exact ⟨[], xs, by simp [heq], by simp⟩
      · refine ⟨x :: l₁, l₂,
          by rw [List.cons_append]; exact congrArg (List.cons x) hsplit, ?_⟩
        intro y hy
        rcases List.mem_cons.mp hy with rfl | hy'
        · exact hlt
        · exact hall y hy'

/-- C9: at game end each player's score is the treasure sum over its safe
villagers (zero when none is safe), and the declared winner is a player of
maximal score, the first such player in the fixed player order on ties. -/
theorem c9_scoring_winner :
    (∀ (g : Game) (pj : Nat) (p : Player), g.players[pj]? = some p →
      (compute_scores g).players[pj]? = some { p with score := playerScore p } ∧
      (safeVillagers p = [] → playerScore p = 0)) ∧
    (∀ g : Game, g.players ≠ [] →
      ∃ w, winner (compute_scores g) = some w ∧
        (∀ q ∈ (compute_scores g).players, q.score ≤ w.score) ∧
        ∃ l₁ l₂, (compute_scores g).players = l₁ ++ w :: l₂ ∧
          ∀ q ∈ l₁, q.score < w.score) := by
  constructor
  · intro g pj p hp
    constructor
    · show (g.players.map _)[pj]? = _
      rw [List.getElem?_map, hp]
      rfl
    · intro hempty
      rw [playerScore, hempty]
      rfl
  · intro g hne
    have hne' : (compute_scores g).players ≠ [] := by
      show g.players.map _ ≠ []
      simpa using hne
    have : ∃ w, winner (compute_scores g) = some w := by
      unfold winner pyMaxBy
      cases hps : (compute_scores g).players with
      | nil => exact absurd hps hne'
      | cons x xs => exact ⟨_, rfl⟩
    obtain ⟨w, hw⟩ := this
    obtain ⟨hmem, hmax, hfirst⟩ := pyMaxBy_spec _ _ w hw
    exact ⟨w, hw, hmax, hfirst⟩

theorem c9_scoring_winner_witness :
    ((compute_scores c9Game).players[2]?
        = some { name := "Computer2", is_human := false, villagers := [],
                 score := playerScore { name := "Computer2", is_human := false,
                                        villagers := [], score := 0 } } ∧
      (safeVillagers { name := "Computer2", is_human := false,
                       villagers := ([] : List Villager), score := 0 } = [] →
        playerScore { name := "Computer2", is_human := false,
                      villagers := [], score := 0 } = 0)) ∧
    (∃ w, winner (compute_scores c9Game) = some w ∧
      (∀ q ∈ (compute_scores c9Game).players, q.score ≤ w.score) ∧
      ∃ l₁ l₂, (compute_scores c9Game).players = l₁ ++ w :: l₂ ∧
        ∀ q ∈ l₁, q.score < w.score) :=
  ⟨c9_scoring_winner.1 c9Game 2
      { name := "Computer2", is_human := false, villagers := [], score := 0 }
      rfl,
    c9_scoring_winner.2 c9Game (by decide)⟩

/-- C2 (amended): a round that ends with the round counter at the maximum
of 20 terminates the game with the erupts reason — but only when no
termination fired inside the round's player loop; when the all-tiles-sunk
check ends the game during the round, its result (and its reason) stands
even if the round limit is reached at the same boundary, so the erupts
reason does not override it. -/
theorem c2_round_limit_amended (g : Game)
    (scripts : List (List (Option (Nat × Int))))
    (sinks : List Nat) (rolls : List (Nat × Nat))
    (hsunk : ¬ g.all_tiles_sunk = true) :
    ((players_loop { g with total_turns := g.total_turns + 1 }
        scripts sinks rolls).2 = false →
      MAX_TURNS ≤ (players_loop { g with total_turns := g.total_turns + 1 }
        scripts sinks rolls).1.total_turns →
      play_round g scripts sinks rolls
        = ({ (players_loop { g with total_turns := g.total_turns + 1 }
              scripts sinks rolls).1
             with game_end_reason := eruptReason }, true)) ∧
    ((players_loop { g with total_turns := g.total_turns + 1 }
        scripts sinks rolls).2 = false →
      (players_loop { g with total_turns := g.total_turns + 1 }
        scripts sinks rolls).1.total_turns < MAX_TURNS →
      play_round g scripts sinks rolls
        = players_loop { g with total_turns := g.total_turns + 1 }
            scripts sinks rolls) ∧
    ((players_loop { g with total_turns := g.total_turns + 1 }
        scripts sinks rolls).2 = true →
      play_round g scripts sinks rolls
        = players_loop { g with total_turns := g.total_turns + 1 }
            scripts sinks rolls) := by
  refine ⟨?_, ?_, ?_⟩
  · intro hover hmax
    unfold play_round
    rw [if_neg hsunk, if_pos ⟨hmax, hover⟩]
  · intro hover hlt
    unfold play_round
    rw [if_neg hsunk, if_neg]
    rintro ⟨hmax, _⟩
    exact absurd hmax (not_le.mpr hlt)
  · intro hover
    unfold play_round
    rw [if_neg hsunk, if_neg]
    rintro ⟨_, hfalse⟩
    rw [hover] at hfalse
    cases hfalse

theorem c2_round_limit_amended_witness :
    (¬ c2AGame.all_tiles_sunk = true) ∧
    ((players_loop { c2AGame with total_turns := c2AGame.total_turns + 1 }
        [] [] []).2 = false) ∧
    (MAX_TURNS ≤ (players_loop
        { c2AGame with total_turns := c2AGame.total_turns + 1 }
        [] [] []).1.total_turns) ∧
    play_round c2AGame [] [] []
      = ({ (players_loop { c2AGame with total_turns := c2AGame.total_turns + 1 }
            [] [] []).1
           with game_end_reason := eruptReason }, true) :=
  ⟨by decide, by decide, by decide,
    (c2_round_limit_amended c2AGame [] [] [] (by decide)).1
      (by decide) (by decide)⟩

/-- C2 as stated fails: in this round both the round-limit condition and
the all-tiles-sunk condition hold at the boundary, yet the game ends with
the all-tiles-sunk reason — erupts does not override it. -/
theorem c2_round_limit_counterexample :
    MAX_TURNS ≤ (play_round c2BGame [] [] []).1.total_turns ∧
    (play_round c2BGame [] [] []).1.all_tiles_sunk = true ∧
    (play_round c2BGame [] [] []).2 = true ∧
    (play_round c2BGame [] [] []).1.game_end_reason = sunkReason ∧
    ¬ (play_round c2BGame [] [] []).1.game_end_reason = eruptReason := by
  refine ⟨?_, ?_, ?_, ?_, ?_⟩ <;> decide

theorem pyMinByAux_spec {α : Type} (key : α → Int) (l : List α) (a : α) :
    key (pyMinByAux key a l) ≤ key a ∧
    (∀ y ∈ l, key (pyMinByAux key a l) ≤ key y) ∧
    (pyMinByAux key a l = a ∨ pyMinByAux key a l ∈ l) := by
  induction l generalizing a with
  | nil => exact ⟨le_refl _, by simp, Or.inl rfl⟩
  | cons x xs ih =>
    by_cases hax : key x < key a
    · have hred : pyMinByAux key a (x :: xs) = pyMinByAux key x xs := by
        show pyMinByAux key (if key x < key a then x else a) xs = _
        rw [if_pos hax]
      obtain ⟨ih1, ih2, ih3⟩ := ih x
      rw [hred]
      refine ⟨le_of_lt (lt_of_le_of_lt ih1 hax), ?_, ?_⟩
      · intro y hy
        rcases List.mem_cons.mp hy with rfl | hy'
        · exact ih1
        · exact ih2 y hy'
      · rcases ih3 with heq | hmem
        · exact Or.inr (by rw [heq]; exact List.mem_cons_self _ _)
        · exact Or.inr (List.mem_cons_of_mem _ hmem)
    · have hred : pyMinByAux key a (x :: xs) = pyMinByAux key a xs := by
        show pyMinByAux key (if key x < key a then x else a) xs = _
        rw [if_neg hax]
      obtain ⟨ih1, ih2, ih3⟩ := ih a
      rw [hred]
      refine ⟨ih1, ?_, ?_⟩
      · intro y hy
        rcases List.mem_cons.mp hy with rfl | hy'
        · exact le_trans ih1 (le_of_not_lt hax)
        · exact ih2 y hy'
      · rcases ih3 with heq | hmem
        · exact Or.inl heq
        · exact Or.inr (List.mem_cons_of_mem _ hmem)

/-- Python `min(key=…)` returns an element of the list with minimal key. -/
theorem pyMinBy_spec {α : Type} (key : α → Int) (l : List α) (w : α)
    (h : pyMinBy l key = some w) :
    w ∈ l ∧ ∀ y ∈ l, key w ≤ key y := by
  cases l with
  | nil => cases h
  | cons x xs =>
    have hw : w = pyMinByAux key x xs := by
      have : some (pyMinByAux key x xs) = some w := h
      exact (Option.some_inj.mp this).symm
    obtain ⟨h1, h2, h3⟩ := pyMinByAux_spec key xs x
    subst hw
    refine ⟨?_, ?_⟩
    · rcases h3 with heq | hmem
      · rw [heq]
        exact List.mem_cons_self _ _
      · exact List.mem_cons_of_mem _ hmem
    · intro y hy
      rcases List.mem_cons.mp hy with rfl | hy'
      · exact h1
      · exact h2 y hy'

theorem pyMinBy_none {α : Type} (key : α → Int) {l : List α}
    (h : l = []) : pyMinBy l key = none := by
  rw [h]
  rfl

/-- C8: the automated decision of one loop iteration is the deterministic
function `comp_step` of the phase state: it selects a movable villager of
smallest remaining distance; if that one is in water and already moved this
turn it falls back to an on-land villager of smallest remaining distance,
ending the phase when none exists; and the amount is always maximal —
`min(points, distance)` on land (ending the phase when that is not
positive) and exactly 1 in water. -/
theorem c8_comp_policy (p : Player) (st : PhaseLocals) :
    (comp_movable p = [] → comp_step p st = none) ∧
    (∀ v0, pyMinBy (comp_movable p) (fun v => v.distance_remaining) = some v0 →
      (¬ (v0.state = VState.water ∧ v0.id ∈ st.water_moved) →
        v0 ∈ comp_movable p ∧
        (∀ w ∈ comp_movable p, v0.distance_remaining ≤ w.distance_remaining) ∧
        (v0.state = VState.land →
          (min st.points v0.distance_remaining ≤ 0 → comp_step p st = none) ∧
          (0 < min st.points v0.distance_remaining →
            comp_step p st = some (v0.id, min st.points v0.distance_remaining))) ∧
        (v0.state = VState.water → comp_step p st = some (v0.id, 1))) ∧
      ((v0.state = VState.water ∧ v0.id ∈ st.water_moved) →
        (landOnly p = [] → comp_step p st = none) ∧
        (∀ v1, pyMinBy (landOnly p) (fun v => v.distance_remaining) = some v1 →
          v1 ∈ landOnly p ∧ v1.state = VState.land ∧
          (∀ w ∈ landOnly p, v1.distance_remaining ≤ w.distance_remaining) ∧
          (min st.points v1.distance_remaining ≤ 0 → comp_step p st = none) ∧
          (0 < min st.points v1.distance_remaining →
            comp_step p st = some (v1.id, min st.points v1.distance_remaining))))) := by
  constructor
  · intro hempty
    unfold comp_step
    rw [pyMinBy_none _ hempty]
  · intro v0 hmin
    have hspec := pyMinBy_spec _ _ _ hmin
    constructor
    · intro hnot
      have hcond : (decide (v0.state = VState.water)
          && st.water_moved.contains v0.id) = false := by
        rcases Decidable.not_and_iff_or_not.mp hnot with hc | hc
        · simp [hc]
        · have hcf : st.water_moved.contains v0.id = false := by
            simpa using hc
          rw [hcf, Bool.and_false]
      refine ⟨hspec.1, hspec.2, ?_, ?_⟩
      · intro hland
        constructor
        · intro hle
          unfold comp_step
          rw [hmin]
          dsimp only
          rw [if_neg (by rw [hcond]; intro hc; cases hc)]
          dsimp only
          rw [if_pos hland, if_pos hle]
        · intro hpos
          unfold comp_step
          rw [hmin]
          dsimp only
          rw [if_neg (by rw [hcond]; intro hc; cases hc)]
          dsimp only
          rw [if_pos hland, if_neg (not_le.mpr hpos)]
      · intro hwater
        have hnc : st.water_moved.contains v0.id = false := by
          rcases Decidable.not_and_iff_or_not.mp hnot with hc | hc
          · exact absurd hwater hc
          · simpa using hc
        unfold comp_step
        rw [hmin]
        dsimp only
        rw [if_neg (by rw [hcond]; intro hc; cases hc)]
        dsimp only
        rw [if_neg (by rw [hwater]; intro hc; cases hc)]
        rw [if_neg (by rw [hnc]; intro hc; cases hc)]
    · intro hyes
      have hcond : (decide (v0.state = VState.water)
          && st.water_moved.contains v0.id) = true := by
        simp [hyes.1, hyes.2]
      constructor
      · intro hlempty
        unfold comp_step
        rw [hmin]
        dsimp only
        rw [if_pos hcond, pyMinBy_none _ hlempty]
      · intro v1 hmin1
        have hspec1 := pyMinBy_spec _ _ _ hmin1
        have hland1 : v1.state = VState.land := by
          have := (List.mem_filter.mp hspec1.1).2
          simpa using this
        refine ⟨hspec1.1, hland1, hspec1.2, ?_, ?_⟩
        · intro hle
          unfold comp_step
          rw [hmin]
          dsimp only
          rw [if_pos hcond, hmin1]
          dsimp only
          rw [if_pos hland1, if_pos hle]
        · intro hpos
          unfold comp_step
          rw [hmin]
          dsimp only
          rw [if_pos hcond, hmin1]
          dsimp only
          rw [if_pos hland1, if_neg (not_le.mpr hpos)]

theorem c8_comp_policy_witness :
    (pyMinBy (comp_movable c8Player) (fun v => v.distance_remaining)
      = some { id := 2, owner := "Computer1", treasure := 6,
               state := VState.land, distance_remaining := 1,
               tile := some 2 }) ∧
    (0 : Int) < min (3 : Int) 1 ∧
    comp_step c8Player phaseStart = some (2, min (3 : Int) 1) :=
  ⟨by decide, by decide,
    (((c8_comp_policy c8Player phaseStart).2
        { id := 2, owner := "Computer1", treasure := 6, state := VState.land,
          distance_remaining := 1, tile := some 2 }
        (by decide)).1 (by decide)).2.2.1 (by decide) |>.2 (by decide)⟩

theorem idsFrom_length (s n : Nat) : (idsFrom s n).length = n := by
  induction n generalizing s with
  | zero => rfl
  | succ k ih => simp [idsFrom, ih]

theorem idsFrom_append (m : Nat) : ∀ (s n : Nat),
    idsFrom s m ++ idsFrom (s + m) n = idsFrom s (m + n) := by
  induction m with
  | zero => intro s n; simp [idsFrom]
  | succ k ih =>
    intro s n
    show s :: (idsFrom (s + 1) k ++ idsFrom (s + (k + 1)) n) = _
    rw [show s + (k + 1) = (s + 1) + k from by omega, ih (s + 1) n,
      show k + 1 + n = (k + n) + 1 from by omega]
    rfl

theorem mem_idsFrom {x s n : Nat} (h : x ∈ idsFrom s n) : s ≤ x ∧ x < s + n := by
  induction n generalizing s with
  | zero => cases h
  | succ k ih =>
    rcases List.mem_cons.mp h with rfl | h'
    · omega
    · have := ih h'
      omega

theorem idsFrom_nodup (n : Nat) : ∀ s : Nat, (idsFrom s n).Nodup := by
  induction n with
  | zero => intro s; exact List.nodup_nil
  | succ k ih =>
    intro s
    refine List.nodup_cons.mpr ⟨?_, ih (s + 1)⟩
    intro hmem
    have := mem_idsFrom hmem
    omega

theorem updateAt_id {α : Type} (l : List α) (i : Nat) :
    updateAt l i (fun x => x) = l := by
  induction l generalizing i with
  | nil => rfl
  | cons x xs ih =>
    cases i with
    | zero => rfl
    | succ n => simp [updateAt, ih n]

theorem updateAt_congr {α : Type} (l : List α) (i : Nat) {f f' : α → α}
    (h : ∀ x, f x = f' x) : updateAt l i f = updateAt l i f' := by
  induction l generalizing i with
  | nil => rfl
  | cons x xs ih =>
    cases i with
    | zero => simp [updateAt, h]
    | succ n => simp [updateAt, ih n]

theorem updateAt_comp {α : Type} (l : List α) (i : Nat) (f f' : α → α) :
    updateAt (updateAt l i f) i f' = updateAt l i (fun x => f' (f x)) := by
  induction l generalizing i with
  | nil => rfl
  | cons x xs ih =>
    cases i with
    | zero => rfl
    | succ n => simp [updateAt, ih n]

theorem map_updateAt_comm {α β : Type} (ps : List α) (pi : Nat) (f : α → α)
    (h : α → β) (f' : β → β) (hcomm : ∀ p, h (f p) = f' (h p)) :
    (updateAt ps pi f).map h = updateAt (ps.map h) pi f' := by
  induction ps generalizing pi with
  | nil => rfl
  | cons p ps ih =>
    cases pi with
    | zero => simp [updateAt, hcomm]
    | succ n => simp [updateAt, ih n]

theorem map_updateAt_pres {α β : Type} (ps : List α) (pi : Nat) (f : α → α)
    (h : α → β) (hf : ∀ p, h (f p) = h p) :
    (updateAt ps pi f).map h = ps.map h := by
  induction ps generalizing pi with
  | nil => rfl
  | cons p ps ih =>
    cases pi with
    | zero => simp [updateAt, hf]
    | succ n => simp [updateAt, ih n]

theorem villIds_eq_flatten (g : Game) :
    VillIds g = (g.players.map playerIds).flatten := by
  unfold VillIds playerIds
  induction g.players with
  | nil => rfl
  | cons p ps ih => simp_all

theorem place_villager_counter (g : Game) (pi : Nat) (t : Tile) (tr : Nat) :
    (place_villager g pi t tr).villager_counter = g.villager_counter + 1 := rfl

theorem place_villager_playerIds (g : Game) (pi : Nat) (t : Tile) (tr : Nat) :
    (place_villager g pi t tr).players.map playerIds
      = updateAt (g.players.map playerIds) pi
          (fun ids => ids ++ [g.villager_counter]) := by
  show (updateAt g.players pi _).map playerIds = _
  apply map_updateAt_comm
  intro p
  simp [playerIds]

theorem place_villager_is_human (g : Game) (pi : Nat) (t : Tile) (tr : Nat) :
    (place_villager g pi t tr).players.map Player.is_human
      = g.players.map Player.is_human := by
  show (updateAt g.players pi _).map Player.is_human = _
  apply map_updateAt_pres
  intro p
  rfl

theorem setup_player_go_flag (pi : Nat) (o : List (Nat × Nat)) :
    ∀ acc : Game × Bool, acc.2 = true → (setup_player_go pi acc o).2 = true := by
  induction o with
  | nil => intro acc h; exact h
  | cons e rest ih =>
    intro acc h
    show (setup_player_go pi (_, acc.2 || _) rest).2 = true
    exact ih _ (by rw [h]; rfl)

/-- One player's placement run without exhaustion: the villager counter
advances by the oracle length, the player receives exactly the id block
starting at the old counter, and the roster (count and human flags) of all
players is unchanged. -/
theorem setup_player_spec (o : List (Nat × Nat)) (g : Game) (pi : Nat)
    (hflag : (setup_player g pi o).2 = false) :
    (setup_player g pi o).1.villager_counter = g.villager_counter + o.length ∧
    (setup_player g pi o).1.players.map playerIds
      = updateAt (g.players.map playerIds) pi
          (fun ids => ids ++ idsFrom g.villager_counter o.length) ∧
    (setup_player g pi o).1.players.map Player.is_human
      = g.players.map Player.is_human ∧
    (setup_player g pi o).1.players.length = g.players.length := by
  induction o generalizing g with
  | nil =>
    refine ⟨(Nat.add_zero _).symm, ?_, rfl, rfl⟩
    show g.players.map playerIds = _
    rw [updateAt_congr _ _ (fun ids => by
      show ids ++ idsFrom g.villager_counter 0 = ids
      simp [idsFrom])]
    rw [updateAt_id]
  | cons e rest ih =>
    have hr2 : (setup_place_one g pi e.1 e.2).2 = false := by
      by_contra hcc
      have htrue : (setup_place_one g pi e.1 e.2).2 = true := by
        cases hb : (setup_place_one g pi e.1 e.2).2
        · exact absurd hb hcc
        · rfl
      have : (setup_player g pi (e :: rest)).2 = true := by
        show (setup_player_go pi (_, false || _) rest).2 = true
        exact setup_player_go_flag pi rest _ (by rw [htrue]; rfl)
      rw [this] at hflag
      cases hflag
    obtain ⟨t, hch, hr1⟩ : ∃ t, pyChoice (valid_tiles g) e.2 = some t ∧
        (setup_place_one g pi e.1 e.2).1 = place_villager g pi t e.1 := by
      unfold setup_place_one at hr2 ⊢
      cases hch : pyChoice (valid_tiles g) e.2 with
      | none => rw [hch] at hr2; cases hr2
      | some t => exact ⟨t, rfl, rfl⟩
    have hstep : setup_player g pi (e :: rest)
        = setup_player (place_villager g pi t e.1) pi rest := by
      show setup_player_go pi ((setup_place_one g pi e.1 e.2).1,
        false || (setup_place_one g pi e.1 e.2).2) rest = _
      rw [hr1, hr2]
      rfl
    rw [hstep] at hflag ⊢
    obtain ⟨ihc, ihids, ihhum, ihlen⟩ := ih (place_villager g pi t e.1) hflag
    refine ⟨?_, ?_, ?_, ?_⟩
    · rw [ihc, place_villager_counter]
      simp [List.length_cons]
      omega
    · rw [ihids, place_villager_counter, place_villager_playerIds,
        updateAt_comp]
      apply updateAt_congr
      intro ids
      show (ids ++ [g.villager_counter]) ++ idsFrom (g.villager_counter + 1)
          rest.length = ids ++ idsFrom g.villager_counter (e :: rest).length
      rw [List.append_assoc, List.singleton_append]
      rfl
    · rw [ihhum, place_villager_is_human]
    · rw [ihlen]
      show (updateAt g.players pi _).length = _
      exact length_updateAt _ _ _

theorem gstep_players_shape {g g' : Game} (hstep : GStep g g') :
    g'.players.length = g.players.length ∧
    g'.players.map Player.is_human = g.players.map Player.is_human := by
  cases hstep with
  | place pi t treasure _ _ _ _ =>
    exact ⟨length_updateAt _ _ _, place_villager_is_human g pi t treasure⟩
  | move pi vid m st v hleg =>
    obtain ⟨hv, _, _, _, _, _⟩ := hleg
    have hshape : ∀ x : Villager,
        (writeVillager g pi vid x).players.length = g.players.length ∧
        (writeVillager g pi vid x).players.map Player.is_human
          = g.players.map Player.is_human := by
      intro x
      exact ⟨length_updateAt _ _ _, map_updateAt_pres _ _ _ _ fun p => rfl⟩
    by_cases hd : v.distance_remaining - m ≤ 0
    · have hsplit : v.tile = none ∨ ∃ tid, v.tile = some tid := by
        cases v.tile with
        | none => exact Or.inl rfl
        | some tid => exact Or.inr ⟨tid, rfl⟩
      rcases hsplit with ht | ⟨tid, ht⟩
      · rw [move_action_safe_none hv hd ht]
        exact hshape _
      · rw [move_action_safe_some hv hd ht]
        exact hshape _
    · rw [move_action_go hv hd]
      exact hshape _
  | sink i =>
    unfold sink_tile
    cases hc : sink_tile_choice g i with
    | none => exact ⟨rfl, rfl⟩
    | some t =>
      constructor
      · show (g.players.map _).length = _
        simp
      · show (g.players.map _).map Player.is_human = _
        rw [List.map_map]
        exact List.map_congr_left fun p _ => rfl
  | creature roll i =>
    unfold creature_phase
    by_cases hroll : roll = 1 ∨ roll = 2
    · rw [if_pos hroll]
      cases pyChoice (all_water_villagers g) i with
      | none => exact ⟨rfl, rfl⟩
      | some victim =>
        constructor
        · show (g.players.map _).length = _
          simp
        · show (g.players.map _).map Player.is_human = _
          rw [List.map_map]
          exact List.map_congr_left fun p _ => rfl
    · rw [if_neg hroll]
      exact ⟨rfl, rfl⟩

/-- C10: the session always has exactly three players — the human seat
first, then two automated seats — and no engine step changes the roster;
after a placement run that never exhausts tiles, the players' id lists are
the consecutive blocks 1-10, 11-20, 21-30 in placement order, so each
player owns exactly 10 villagers and ids are globally distinct and
sequential from 1. -/
theorem c10_three_players_and_placement :
    (∀ ts : List TileType,
      (Game.init ts).players.length = 3 ∧
      (Game.init ts).players.map Player.is_human = [true, false, false]) ∧
    (∀ g g' : Game, GStep g g' →
      g'.players.length = g.players.length ∧
      g'.players.map Player.is_human = g.players.map Player.is_human) ∧
    (∀ (ts : List TileType) (o0 o1 o2 : List (Nat × Nat)),
      o0.length = 10 → o1.length = 10 → o2.length = 10 →
      (setup (Game.init ts) [o0, o1, o2]).2 = false →
      (setup (Game.init ts) [o0, o1, o2]).1.players.map playerIds
        = [idsFrom 1 10, idsFrom 11 10, idsFrom 21 10] ∧
      (∀ p ∈ (setup (Game.init ts) [o0, o1, o2]).1.players,
        p.villagers.length = 10) ∧
      VillIds (setup (Game.init ts) [o0, o1, o2]).1 = idsFrom 1 30 ∧
      (VillIds (setup (Game.init ts) [o0, o1, o2]).1).Nodup) := by
  refine ⟨fun ts => ⟨rfl, rfl⟩, fun g g' h => gstep_players_shape h, ?_⟩
  intro ts o0 o1 o2 h0 h1 h2 hflag
  have hflags : (((false || (setup_player (Game.init ts) 0 o0).2)
      || (setup_player (setup_player (Game.init ts) 0 o0).1 1 o1).2)
      || (setup_player (setup_player
            (setup_player (Game.init ts) 0 o0).1 1 o1).1 2 o2).2) = false :=
    hflag
  rw [Bool.or_eq_false_iff] at hflags
  obtain ⟨hf01, hf2⟩ := hflags
  rw [Bool.or_eq_false_iff] at hf01
  obtain ⟨hf0', hf1⟩ := hf01
  rw [Bool.or_eq_false_iff] at hf0'
  obtain ⟨-, hf0⟩ := hf0'
  obtain ⟨h1c, h1ids, -, -⟩ := setup_player_spec o0 (Game.init ts) 0 hf0
  rw [h0] at h1c
  have h1c' : (setup_player (Game.init ts) 0 o0).1.villager_counter = 11 := by
    rw [h1c]
    rfl
  have h1ids' : (setup_player (Game.init ts) 0 o0).1.players.map playerIds
      = [idsFrom 1 10, [], []] := by
    rw [h1ids, h0]
    show updateAt [[], [], []] 0 _ = _
    show [([] : List Nat) ++ idsFrom (Game.init ts).villager_counter 10, [], []]
      = _
    rw [List.nil_append]
    rfl
  obtain ⟨h2c, h2ids, -, -⟩ :=
    setup_player_spec o1 (setup_player (Game.init ts) 0 o0).1 1 hf1
  rw [h1, h1c'] at h2c
  have h2ids' : (setup_player (setup_player (Game.init ts) 0 o0).1 1
      o1).1.players.map playerIds
      = [idsFrom 1 10, idsFrom 11 10, []] := by
    rw [h2ids, h1, h1c', h1ids']
    show [idsFrom 1 10, ([] : List Nat) ++ idsFrom 11 10, []] = _
    rw [List.nil_append]
  obtain ⟨h3c, h3ids, -, -⟩ :=
    setup_player_spec o2
      (setup_player (setup_player (Game.init ts) 0 o0).1 1 o1).1 2 hf2
  rw [h2, h2c] at h3c
  have h3ids' : (setup_player (setup_player
      (setup_player (Game.init ts) 0 o0).1 1 o1).1 2 o2).1.players.map playerIds
      = [idsFrom 1 10, idsFrom 11 10, idsFrom 21 10] := by
    rw [h3ids, h2, h2c, h2ids']
    show [idsFrom 1 10, idsFrom 11 10, ([] : List Nat) ++ idsFrom 21 10] = _
    rw [List.nil_append]
  have hmain : (setup (Game.init ts) [o0, o1, o2]).1.players.map playerIds
      = [idsFrom 1 10, idsFrom 11 10, idsFrom 21 10] := h3ids'
  have ha1 : idsFrom 1 10 ++ idsFrom 11 10 = idsFrom 1 20 := by
    simpa using idsFrom_append 10 1 10
  have ha2 : idsFrom 1 20 ++ idsFrom 21 10 = idsFrom 1 30 := by
    simpa using idsFrom_append 20 1 10
  have hvill : VillIds (setup (Game.init ts) [o0, o1, o2]).1 = idsFrom 1 30 := by
    rw [villIds_eq_flatten, hmain]
    show idsFrom 1 10 ++ (idsFrom 11 10 ++ (idsFrom 21 10 ++ [])) = _
    rw [List.append_nil, ← List.append_assoc, ha1, ha2]
  refine ⟨hmain, ?_, hvill, ?_⟩
  · intro p hp
    have hpm : playerIds p ∈ [idsFrom 1 10, idsFrom 11 10, idsFrom 21 10] := by
      rw [← hmain]
      exact List.mem_map_of_mem _ hp
    have hlen : (playerIds p).length = 10 := by
      rcases List.mem_cons.mp hpm with heq | hpm'
      · rw [heq, idsFrom_length]
      rcases List.mem_cons.mp hpm' with heq | hpm''
      · rw [heq, idsFrom_length]
      rcases List.mem_cons.mp hpm'' with heq | hfalse
      · rw [heq, idsFrom_length]
      · cases hfalse
    rw [← hlen]
    exact (List.length_map _ _).symm
  · rw [hvill]
    exact idsFrom_nodup 30 1

theorem c10_three_players_and_placement_witness :
    (Game.init ts0).players.map Player.is_human = [true, false, false] ∧
    c10Oracle.length = 10 ∧
    (setup (Game.init ts0) [c10Oracle, c10Oracle, c10Oracle]).2 = false ∧
    VillIds (setup (Game.init ts0) [c10Oracle, c10Oracle, c10Oracle]).1
      = idsFrom 1 30 :=
  ⟨(c10_three_players_and_placement.1 ts0).2, by decide, by decide,
    (c10_three_players_and_placement.2.2 ts0 c10Oracle c10Oracle c10Oracle
      (by decide) (by decide) (by decide) (by decide)).2.2.1⟩

theorem human_ok_spec {g : Game} {pi vid : Nat} {m : Int} {st : PhaseLocals}
    (h : human_ok g pi vid m st = true) :
    ∃ v, getVillager g pi vid = some v ∧
      (v.state = VState.land ∨ v.state = VState.water) ∧ 0 < st.points ∧
      ¬ (v.state = VState.water ∧ vid ∈ st.water_moved) ∧ 1 ≤ m ∧
      m ≤ (if v.state = VState.land
           then min st.points v.distance_remaining else 1) := by
  unfold human_ok at h
  cases hv : getVillager g pi vid with
  | none => rw [hv] at h; cases h
  | some v =>
    rw [hv] at h
    simp only [Bool.and_eq_true, Bool.or_eq_true, Bool.not_eq_true',
      Bool.and_eq_false_iff, decide_eq_true_eq, decide_eq_false_iff_not] at h
    obtain ⟨⟨⟨⟨⟨hpts, hmov⟩, hnw⟩, hmm⟩, hm1⟩, hple⟩ := h
    refine ⟨v, rfl, hmov, hpts, ?_, hm1, hple⟩
    rintro ⟨hw, hmem⟩
    rcases hnw with hc | hc
    · exact hc hw
    · exact hc hmem

theorem comp_step_spec {p : Player} {st : PhaseLocals} {vid : Nat} {m : Int}
    (h : comp_step p st = some (vid, m)) :
    ∃ w ∈ comp_movable p, w.id = vid ∧
      ((w.state = VState.land ∧ m = min st.points w.distance_remaining ∧
          0 < m) ∨
       (w.state = VState.water ∧ m = 1 ∧ vid ∉ st.water_moved)) := by
  unfold comp_step at h
  cases hmin : pyMinBy (comp_movable p) (fun v => v.distance_remaining) with
  | none => rw [hmin] at h; cases h
  | some v0 =>
    rw [hmin] at h
    dsimp only at h
    by_cases hcond : (decide (v0.state = VState.water)
        && st.water_moved.contains v0.id) = true
    · rw [if_pos hcond] at h
      cases hmin1 : pyMinBy (landOnly p) (fun v => v.distance_remaining) with
      | none => rw [hmin1] at h; cases h
      | some v1 =>
        rw [hmin1] at h
        dsimp only at h
        have hmem1 := (pyMinBy_spec _ _ _ hmin1).1
        have hland1 : v1.state = VState.land := by
          have := (List.mem_filter.mp hmem1).2
          simpa using this
        rw [if_pos hland1] at h
        by_cases hle : min st.points v1.distance_remaining ≤ 0
        · rw [if_pos hle] at h
          cases h
        · rw [if_neg hle] at h
          injection h with h
          rw [Prod.mk.injEq] at h
          obtain ⟨hvid, hm⟩ := h
          refine ⟨v1, (List.mem_filter.mp hmem1).1, hvid, Or.inl
            ⟨hland1, hm.symm, ?_⟩⟩
          rw [← hm]
          exact lt_of_not_le hle
    · rw [if_neg hcond] at h
      dsimp only at h
      have hmem0 := (pyMinBy_spec _ _ _ hmin).1
      by_cases hstate : v0.state = VState.land
      · rw [if_pos hstate] at h
        by_cases hle : min st.points v0.distance_remaining ≤ 0
        · rw [if_pos hle] at h
          cases h
        · rw [if_neg hle] at h
          injection h with h
          rw [Prod.mk.injEq] at h
          obtain ⟨hvid, hm⟩ := h
          refine ⟨v0, hmem0, hvid, Or.inl ⟨hstate, hm.symm, ?_⟩⟩
          rw [← hm]
          exact lt_of_not_le hle
      · rw [if_neg hstate] at h
        have hwater : v0.state = VState.water := by
          have := (List.mem_filter.mp hmem0).2
          simp only [Bool.or_eq_true, decide_eq_true_eq] at this
          rcases this with hc | hc
          · exact absurd hc hstate
          · exact hc
        by_cases hcc : st.water_moved.contains v0.id = true
        · rw [if_pos hcc] at h
          cases h
        · rw [if_neg hcc] at h
          injection h with h
          rw [Prod.mk.injEq] at h
          obtain ⟨hvid, hm⟩ := h
          refine ⟨v0, hmem0, hvid, Or.inr ⟨hwater, hm.symm, ?_⟩⟩
          rw [← hvid]
          intro hmm
          exact hcc (by simpa using hmm)

theorem find?_map_write_other (vs : List Villager) (vid vid' : Nat)
    (x : Villager) (hx : x.id = vid') (hne : vid ≠ vid') :
    (vs.map fun w => if w.id == vid' then x else w).find?
        (fun w => w.id == vid)
      = vs.find? (fun w => w.id == vid) := by
  induction vs with
  | nil => rfl
  | cons w ws ih =>
    by_cases hw : w.id = vid'
    · have hcond : (w.id == vid') = true := by simp [hw]
      rw [List.map_cons, if_pos hcond]
      have hxne : ¬ (x.id == vid) = true := by
        simp [hx]
        exact fun hc => hne hc.symm
      have hwne : ¬ (w.id == vid) = true := by
        simp [hw]
        exact fun hc => hne hc.symm
      have e1 : List.find? (fun u => u.id == vid)
          (x :: ws.map fun u => if u.id == vid' then x else u)
          = List.find? (fun u => u.id == vid)
              (ws.map fun u => if u.id == vid' then x else u) :=
        List.find?_cons_of_neg _ hxne
      have e2 : List.find? (fun u => u.id == vid) (w :: ws)
          = List.find? (fun u => u.id == vid) ws :=
        List.find?_cons_of_neg _ hwne
      rw [e1, e2]
      exact ih
    · have hcond : ¬ (w.id == vid') = true := by simp [hw]
      rw [List.map_cons, if_neg hcond]
      by_cases hwv : (w.id == vid) = true
      · have e1 : List.find? (fun u => u.id == vid)
            (w :: ws.map fun u => if u.id == vid' then x else u) = some w :=
          List.find?_cons_of_pos _ hwv
        have e2 : List.find? (fun u => u.id == vid) (w :: ws) = some w :=
          List.find?_cons_of_pos _ hwv
        rw [e1, e2]
      · have e1 : List.find? (fun u => u.id == vid)
            (w :: ws.map fun u => if u.id == vid' then x else u)
            = List.find? (fun u => u.id == vid)
                (ws.map fun u => if u.id == vid' then x else u) :=
          List.find?_cons_of_neg _ hwv
        have e2 : List.find? (fun u => u.id == vid) (w :: ws)
            = List.find? (fun u => u.id == vid) ws :=
          List.find?_cons_of_neg _ hwv
        rw [e1, e2]
        exact ih

theorem getVillager_write_other {g : Game} {pi vid u : Nat} {x : Villager}
    (hx : x.id = vid) (hne : u ≠ vid) :
    getVillager (writeVillager g pi vid x) pi u = getVillager g pi u := by
  unfold getVillager
  cases hp : g.players[pi]? with
  | none =>
    have : (writeVillager g pi vid x).players[pi]? = none := by
      show (updateAt g.players pi _)[pi]? = none
      rw [getElem?_updateAt, if_pos rfl, hp]
      rfl
    rw [this]
  | some p =>
    have : (writeVillager g pi vid x).players[pi]?
        = some { p with villagers := p.villagers.map fun w =>
            if w.id == vid then x else w } := by
      show (updateAt g.players pi _)[pi]? = _
      rw [getElem?_updateAt, if_pos rfl, hp]
      rfl
    rw [this]
    exact find?_map_write_other p.villagers u vid x hx hne

theorem getVillager_move_other {g : Game} {pi vid : Nat} {m : Int}
    {st : PhaseLocals} {v : Villager} {u : Nat}
    (hv : getVillager g pi vid = some v) (hne : u ≠ vid) :
    getVillager (move_action g pi vid m st).1 pi u = getVillager g pi u := by
  have hvid : v.id = vid := by
    obtain ⟨p, -, -, h4⟩ := getVillager_spec hv
    exact h4
  by_cases hd : v.distance_remaining - m ≤ 0
  · have hsplit : v.tile = none ∨ ∃ tid, v.tile = some tid := by
      cases v.tile with
      | none => exact Or.inl rfl
      | some tid => exact Or.inr ⟨tid, rfl⟩
    rcases hsplit with ht | ⟨tid, ht⟩
    · rw [move_action_safe_none hv hd ht]
      exact getVillager_write_other hvid hne
    · rw [move_action_safe_some hv hd ht]
      exact getVillager_write_other hvid hne
  · rw [move_action_go hv hd]
    exact getVillager_write_other hvid hne

theorem nodupPIds_move (g : Game) (pi vid : Nat) (m : Int) (st : PhaseLocals)
    (hnd : NodupPIds g pi) : NodupPIds (move_action g pi vid m st).1 pi := by
  cases hv : getVillager g pi vid with
  | none =>
    unfold move_action
    rw [hv]
    exact hnd
  | some v =>
    have hvid : v.id = vid := by
      obtain ⟨p0, -, -, h4⟩ := getVillager_spec hv
      exact h4
    have hcore : ∀ x : Villager, x.id = vid →
        NodupPIds (writeVillager g pi vid x) pi := by
      intro x hx q hq
      obtain ⟨p, hp, -, -⟩ := getVillager_spec hv
      have hq' : (writeVillager g pi vid x).players[pi]?
          = some { p with villagers := p.villagers.map fun w =>
              if w.id == vid then x else w } := by
        show (updateAt g.players pi _)[pi]? = _
        rw [getElem?_updateAt, if_pos rfl, hp]
        rfl
      rw [hq'] at hq
      injection hq with hq
      rw [← hq]
      have hids : ((p.villagers.map fun w =>
          if w.id == vid then x else w).map Villager.id)
          = p.villagers.map Villager.id := by
        apply map_vill_id_of_preserve
        intro w
        by_cases hw : w.id = vid
        · simp [hw, hx]
        · simp [hw]
      show ((p.villagers.map _).map Villager.id).Nodup
      rw [hids]
      exact hnd p hp
    by_cases hd : v.distance_remaining - m ≤ 0
    · have hsplit : v.tile = none ∨ ∃ tid, v.tile = some tid := by
        cases v.tile with
        | none => exact Or.inl rfl
        | some tid => exact Or.inr ⟨tid, rfl⟩
      rcases hsplit with ht | ⟨tid, ht⟩
      · rw [move_action_safe_none hv hd ht]
        exact hcore _ hvid
      · rw [move_action_safe_some hv hd ht]
        exact hcore _ hvid
    · rw [move_action_go hv hd]
      exact hcore _ hvid

theorem move_action_marker_mono (g : Game) (pi vid : Nat) (m : Int)
    (st : PhaseLocals) {x : Nat} (hx : x ∈ st.water_moved) :
    x ∈ (move_action g pi vid m st).2.water_moved := by
  unfold move_action
  cases hv : getVillager g pi vid with
  | none => exact hx
  | some v =>
    dsimp only
    by_cases hd : v.distance_remaining - m ≤ 0
    · rw [if_pos hd]
      cases v.tile <;> exact hx
    · rw [if_neg hd]
      by_cases hw : v.state = VState.water
      · rw [if_pos hw]
        exact List.mem_cons_of_mem _ hx
      · rw [if_neg hw]
        exact hx

theorem move_action_points {g : Game} {pi vid : Nat} {m : Int}
    {st : PhaseLocals} {v : Villager} (hv : getVillager g pi vid = some v) :
    (move_action g pi vid m st).2.points = st.points - m := by
  unfold move_action
  rw [hv]
  dsimp only
  by_cases hd : v.distance_remaining - m ≤ 0
  · rw [if_pos hd]
  · rw [if_neg hd]
    by_cases hw : v.state = VState.water
    · rw [if_pos hw]
    · rw [if_neg hw]

theorem move_action_distance {g : Game} {pi vid : Nat} {m : Int}
    {st : PhaseLocals} {v : Villager} (hv : getVillager g pi vid = some v) :
    ∃ v', getVillager (move_action g pi vid m st).1 pi vid = some v' ∧
      v'.distance_remaining = v.distance_remaining - m := by
  have hvid : v.id = vid := by
    obtain ⟨p, -, -, h4⟩ := getVillager_spec hv
    exact h4
  by_cases hd : v.distance_remaining - m ≤ 0
  · have hsplit : v.tile = none ∨ ∃ tid, v.tile = some tid := by
      cases v.tile with
      | none => exact Or.inl rfl
      | some tid => exact Or.inr ⟨tid, rfl⟩
    rcases hsplit with ht | ⟨tid, ht⟩
    · rw [move_action_safe_none hv hd ht]
      exact ⟨_, getVillager_write_self hv hvid, rfl⟩
    · rw [move_action_safe_some hv hd ht]
      exact ⟨_, getVillager_write_self hv hvid, rfl⟩
  · rw [move_action_go hv hd]
    exact ⟨_, getVillager_write_self hv hvid, rfl⟩

/-- After an in-water move, the villager is either marked as already moved
or has reached safety. -/
theorem water_step_post {g : Game} {pi vid : Nat} {st : PhaseLocals}
    {v : Villager} (hv : getVillager g pi vid = some v)
    (hw : v.state = VState.water) :
    vid ∈ (move_action g pi vid 1 st).2.water_moved ∨
      isSafeAt (move_action g pi vid 1 st).1 pi vid := by
  have hvid : v.id = vid := by
    obtain ⟨p, -, -, h4⟩ := getVillager_spec hv
    exact h4
  by_cases hd : v.distance_remaining - 1 ≤ 0
  · right
    have hsplit : v.tile = none ∨ ∃ tid, v.tile = some tid := by
      cases v.tile with
      | none => exact Or.inl rfl
      | some tid => exact Or.inr ⟨tid, rfl⟩
    rcases hsplit with ht | ⟨tid, ht⟩
    · rw [move_action_safe_none hv hd ht]
      exact ⟨_, getVillager_write_self hv hvid, rfl⟩
    · rw [move_action_safe_some hv hd ht]
      exact ⟨_, getVillager_write_self hv hvid, rfl⟩
  · left
    rw [move_action_go hv hd]
    show vid ∈ (if v.state = VState.water
      then ({ points := st.points - 1, water_moved := vid :: st.water_moved }
        : PhaseLocals)
      else { st with points := st.points - 1 }).water_moved
    rw [if_pos hw]
    exact List.mem_cons_self _ _

/-- What any accepted move (either decision source) guarantees: the moved
villager exists and was movable, the amount is at least 1, an in-water move
has amount exactly 1 and targets a villager not yet moved in water this
turn, and the successor state is the `move_action` mutation. -/
theorem phaseStep_spec {pi : Nat} {s s' : Game × PhaseLocals} {a : Act}
    (h : PhaseStep pi s a s') (hnd : NodupPIds s.1 pi) :
    ∃ v, getVillager s.1 pi a.vid = some v ∧ v.state = a.was ∧
      (a.was = VState.land ∨ a.was = VState.water) ∧ 1 ≤ a.m ∧
      (a.was = VState.water → a.m = 1 ∧ a.vid ∉ s.2.water_moved) ∧
      s' = move_action s.1 pi a.vid a.m s.2 := by
  cases h with
  | human g st vid m v p hp hh hok hv =>
    obtain ⟨v', hv', hmov, hpts, hnw, hm1, hple⟩ := human_ok_spec hok
    rw [hv] at hv'
    injection hv' with hv'
    rw [← hv'] at hmov hnw hple
    refine ⟨v, hv, rfl, hmov, hm1, ?_, rfl⟩
    intro hw
    have hw2 : v.state = VState.water := hw
    have hle1 : m ≤ 1 := by
      rw [if_neg (by rw [hw2]; intro hc; cases hc)] at hple
      exact hple
    refine ⟨?_, fun hmem => hnw ⟨hw2, hmem⟩⟩
    show m = 1
    omega
  | comp g st vid m v p hp hh hpts hcs hv =>
    obtain ⟨w, hwmem, hwid, hcases⟩ := comp_step_spec hcs
    have hpmem : w ∈ p.villagers := (List.mem_filter.mp hwmem).1
    obtain ⟨p', hp', hvmem, hvid⟩ := getVillager_spec hv
    rw [hp] at hp'
    injection hp' with hp'
    rw [← hp'] at hvmem
    have hveq : v = w := by
      apply List.inj_on_of_nodup_map (hnd p hp) hvmem hpmem
      rw [hvid, hwid]
    rcases hcases with ⟨hst, hm, hpos⟩ | ⟨hst, hm, hnmem⟩
    · refine ⟨v, hv, rfl, Or.inl (by rw [hveq]; exact hst), ?_, ?_, rfl⟩
      · show 1 ≤ m
        omega
      · intro hw
        have hw2 : v.state = VState.water := hw
        rw [hveq] at hw2
        rw [hst] at hw2
        cases hw2
    · refine ⟨v, hv, rfl, Or.inr (by rw [hveq]; exact hst), ?_, ?_, rfl⟩
      · show 1 ≤ m
        omega
      · intro hwx
        exact ⟨hm, hnmem⟩

/-- Within one run of accepted moves: the in-water moves target pairwise
distinct villagers, each in-water move has amount 1 and a target not yet
marked at the start, and no move at all targets a villager that is already
safe at the start. -/
theorem trace_spec {pi : Nat} {s : Game × PhaseLocals} {acts : List Act}
    {s₂ : Game × PhaseLocals} (htr : PhaseTrace pi s acts s₂) :
    NodupPIds s.1 pi →
    (((acts.filter fun a => decide (a.was = VState.water)).map Act.vid).Nodup ∧
     (∀ a ∈ acts, a.was = VState.water →
       a.vid ∉ s.2.water_moved ∧ a.m = 1) ∧
     (∀ a ∈ acts, ¬ isSafeAt s.1 pi a.vid)) := by
  induction htr with
  | nil s => exact fun _ => ⟨by simp, by simp, by simp⟩
  | cons s s₁ s₂ a as hstep htr ih =>
    intro hnd
    obtain ⟨v, hv, hvs, hmov, hm1, hwat, hmv⟩ := phaseStep_spec hstep hnd
    have hnd₁ : NodupPIds s₁.1 pi := by
      rw [hmv]
      exact nodupPIds_move _ _ _ _ _ hnd
    obtain ⟨ihN, ihW, ihS⟩ := ih hnd₁
    have hnotsafe_a : ¬ isSafeAt s.1 pi a.vid := by
      rintro ⟨vs, hvs2, hsafe⟩
      rw [hv] at hvs2
      injection hvs2 with hvs2
      rw [← hvs2] at hsafe
      rw [hvs] at hsafe
      rcases hmov with hc | hc <;> rw [hc] at hsafe <;> cases hsafe
    have hsafe_pers : ∀ u : Nat, isSafeAt s.1 pi u → isSafeAt s₁.1 pi u := by
      intro u hs
      obtain ⟨vs, hvs2, hsafe⟩ := hs
      have hne : u ≠ a.vid := by
        intro heq
        exact hnotsafe_a ⟨vs, heq ▸ hvs2, hsafe⟩
      rw [hmv]
      exact ⟨vs, by rw [getVillager_move_other hv hne]; exact hvs2, hsafe⟩
    refine ⟨?_, ?_, ?_⟩
    · by_cases hwa : a.was = VState.water
      · rw [List.filter_cons_of_pos (by simp [hwa])]
        rw [List.map_cons]
        refine List.nodup_cons.mpr ⟨?_, ihN⟩
        intro hmem
        obtain ⟨b, hb, hbvid⟩ := List.mem_map.mp hmem
        have hbas : b ∈ as := (List.mem_filter.mp hb).1
        have hbw : b.was = VState.water := by
          have := (List.mem_filter.mp hb).2
          simpa using this
        have hpost : a.vid ∈ s₁.2.water_moved ∨ isSafeAt s₁.1 pi a.vid := by
          rw [hmv, (hwat hwa).1]
          exact water_step_post hv (by rw [← hvs] at hwa; exact hwa)
        rcases hpost with hmk | hsf
        · have := (ihW b hbas hbw).1
          rw [hbvid] at this
          exact this hmk
        · have := ihS b hbas
          rw [hbvid] at this
          exact this hsf
      · rw [List.filter_cons_of_neg (by simp [hwa])]
        exact ihN
    · intro a' ha' hw'
      rcases List.mem_cons.mp ha' with rfl | ha''
      · exact ⟨(hwat hw').2, (hwat hw').1⟩
      · refine ⟨?_, (ihW a' ha'' hw').2⟩
        intro hmem
        have hmono : a'.vid ∈ s₁.2.water_moved := by
          rw [hmv]
          exact move_action_marker_mono _ _ _ _ _ hmem
        exact (ihW a' ha'' hw').1 hmono
    · intro a' ha'
      rcases List.mem_cons.mp ha' with rfl | ha''
      · exact hnotsafe_a
      · intro hsf
        exact ihS a' ha'' (hsafe_pers _ hsf)

/-- C6: within any single player's movement phase — started, as the code
does, with 3 points and an empty already-moved-in-water marker set — an
in-water villager is moved at most once, and every in-water move costs
exactly 1 point and reduces the remaining distance by exactly 1; this holds
for both decision sources, which are the two constructors of `PhaseStep`. -/
theorem c6_water_moved_once :
    (∀ (pi : Nat) (g : Game) (acts : List Act) (s₂ : Game × PhaseLocals),
      PhaseTrace pi (g, phaseStart) acts s₂ → NodupPIds g pi →
      ((acts.filter fun a => decide (a.was = VState.water)).map Act.vid).Nodup ∧
      (∀ a ∈ acts, a.was = VState.water → a.m = 1)) ∧
    (∀ (pi : Nat) (s s₂ : Game × PhaseLocals) (a : Act),
      PhaseStep pi s a s₂ → NodupPIds s.1 pi → a.was = VState.water →
      a.m = 1 ∧ s₂.2.points = s.2.points - 1 ∧
      ∃ v v', getVillager s.1 pi a.vid = some v ∧
        getVillager s₂.1 pi a.vid = some v' ∧
        v'.distance_remaining = v.distance_remaining - 1) := by
  constructor
  · intro pi g acts s₂ htr hnd
    obtain ⟨hN, hW, -⟩ := trace_spec htr hnd
    exact ⟨hN, fun a ha hw => (hW a ha hw).2⟩
  · intro pi s s₂ a hstep hnd hw
    obtain ⟨v, hv, hvs, hmov, hm1, hwat, hmv⟩ := phaseStep_spec hstep hnd
    obtain ⟨hm, -⟩ := hwat hw
    refine ⟨hm, ?_, ?_⟩
    · rw [hmv]
      rw [move_action_points hv, hm]
    · obtain ⟨v', hv', hd⟩ := @move_action_distance s.1 pi a.vid a.m s.2 v hv
      refine ⟨v, v', hv, ?_, ?_⟩
      · rw [hmv]
        exact hv'
      · rw [hd, hm]

theorem c6_water_moved_once_witness :
    NodupPIds c6Game 0 ∧
    PhaseTrace 0 (c6Game, phaseStart) [⟨1, 1, VState.water⟩]
      (move_action c6Game 0 1 1 phaseStart) ∧
    ((([⟨1, 1, VState.water⟩] : List Act).filter fun a =>
        decide (a.was = VState.water)).map Act.vid).Nodup ∧
    (∀ a ∈ ([⟨1, 1, VState.water⟩] : List Act),
      a.was = VState.water → a.m = 1) := by
  have hnd : NodupPIds c6Game 0 := by
    intro p hp
    have hp2 : p = c6Player := by
      have h := Option.some_inj.mp hp.symm
      exact h
    rw [hp2]
    decide
  have htr : PhaseTrace 0 (c6Game, phaseStart) [⟨1, 1, VState.water⟩]
      (move_action c6Game 0 1 1 phaseStart) := by
    refine PhaseTrace.cons _ _ _ _ _ ?_ (PhaseTrace.nil _)
    exact PhaseStep.comp c6Game phaseStart 1 1 c6Vill c6Player
      rfl rfl (by decide) (by decide) rfl
  have hmain := (c6_water_moved_once.1 0 c6Game [⟨1, 1, VState.water⟩]
    (move_action c6Game 0 1 1 phaseStart) htr hnd)
  exact ⟨hnd, htr, hmain.1, hmain.2⟩

theorem c4_sink_tier_priority_witness :
    (∃ t ∈ c4Game.get_all_tiles, t.type = TileType.beach) ∧
    (∃ t, (sink_tile c4Game 0).2 = some t ∧ t ∈ c4Game.get_all_tiles ∧
      t.type = TileType.beach) :=
  ⟨by decide, (c4_sink_tier_priority c4Game 0).1 (by decide)⟩

end Atlantis

